import Mathlib

/-!
# Verification of the call-invitation backend (`sendCallInvitation.js`)

A shallow embedding of the canonical revision of `src/api/sendCallInvitation.js`
(the first, fully-logged revision) together with its CORS policy resolver and the
payload string-coercion helpers, and proofs of the specified properties.

JavaScript values appearing in notification payloads are modelled by `JsVal`
(strings, integer-valued numbers, booleans, `null`, `undefined`, and nested
objects).  JSON serialization (`JSON.stringify`, no spacing) and a receipt-side
JSON parse are modelled on character lists, with a proven codec round-trip.
-/

set_option linter.unusedVariables false
set_option maxHeartbeats 1600000

namespace CallPoc

/-! ## JavaScript values -/

mutual

/-- A JavaScript value as it can occur in a notification payload: string, number
(integer-valued; the payloads in the source use only integers), boolean, `null`,
`undefined`, or a nested object. -/
inductive JsVal : Type where
  | str (s : String)
  | num (n : Int)
  | bool (b : Bool)
  | null
  | undef
  | obj (ms : JsMembers)
  deriving DecidableEq

/-- The members of a nested JavaScript object, in property order. -/
inductive JsMembers : Type where
  | nil
  | cons (k : String) (v : JsVal) (ms : JsMembers)
  deriving DecidableEq

end

/-! ## JavaScript truthiness and `||` defaulting

`Option String` models a JS variable that is either a string or `undefined`;
the empty string and `undefined` are both falsy. -/

/-- JS truthiness of a string-or-undefined value (`undefined` and `""` are falsy). -/
def jsTruthyS : Option String → Bool
  | none => false
  | some s => !s.isEmpty

/-- JS `a || d` where `a` is a string-or-undefined and `d` a string. -/
def jsOrS (a : Option String) (d : String) : String :=
  match a with
  | none => d
  | some s => if s.isEmpty then d else s

/-- JS `a || b` where both sides are string-or-undefined. -/
def jsOrOpt (a b : Option String) : Option String :=
  if jsTruthyS a then a else b

/-- JS `a || null` on a string-or-undefined value (models line 243 of the source:
`agoraToken: agoraToken || null`; `none` stands for the stored `null`). -/
def jsOrNull (a : Option String) : Option String :=
  if jsTruthyS a then a else none

/-- A string-or-undefined value as a `JsVal` (`undefined` when absent). -/
def optToJs : Option String → JsVal
  | none => JsVal.undef
  | some s => JsVal.str s

/-! ## `JSON.stringify` (no spacing), on character lists -/

/-- Hexadecimal digit character (lowercase), as `Number.prototype.toString(16)` emits. -/
def hexChar (n : Nat) : Char :=
  if n < 10 then Char.ofNat ('0'.toNat + n) else Char.ofNat ('a'.toNat + (n - 10))

/-- JSON escaping of one character, as `JSON.stringify` performs it: `"` and `\`
get a backslash, the named control characters use their short escapes, all other
control characters use `\u00XX`, everything else is emitted verbatim. -/
def jsonEscapeChar (c : Char) : List Char :=
  if c = '"' then ['\\', '"']
  else if c = '\\' then ['\\', '\\']
  else if c = '\n' then ['\\', 'n']
  else if c = '\r' then ['\\', 'r']
  else if c = '\t' then ['\\', 't']
  else if c = Char.ofNat 8 then ['\\', 'b']
  else if c = Char.ofNat 12 then ['\\', 'f']
  else if c.toNat < 32 then
    ['\\', 'u', '0', '0', hexChar (c.toNat / 16), hexChar (c.toNat % 16)]
  else [c]

/-- JSON escaping of a whole string body. -/
def jsonEscape (cs : List Char) : List Char :=
  match cs with
  | [] => []
  | c :: rest => jsonEscapeChar c ++ jsonEscape rest

/-- A JSON string literal: quotes around the escaped body. -/
def jsonQuote (s : String) : List Char :=
  '"' :: (jsonEscape s.data ++ ['"'])

/-- Decimal digit characters of a natural number, most significant first. -/
def natChars (n : Nat) : List Char :=
  if h : n < 10 then [Char.ofNat ('0'.toNat + n)]
  else natChars (n / 10) ++ [Char.ofNat ('0'.toNat + n % 10)]
termination_by n
decreasing_by exact Nat.div_lt_self (by omega) (by omega)

/-- Decimal characters of an integer (`String(n)` / `JSON.stringify(n)` for an
integer-valued JS number). -/
def intChars (i : Int) : List Char :=
  if i < 0 then '-' :: natChars i.natAbs else natChars i.natAbs

mutual

/-- `JSON.stringify` of a JS value, or `none` exactly when JS would return
`undefined` (i.e. on `undefined` itself).  Inside objects, members whose value
does not serialize are dropped, as `JSON.stringify` drops them. -/
def JsVal.stringifyChars : JsVal → Option (List Char)
  | .str s => some (jsonQuote s)
  | .num n => some (intChars n)
  | .bool true => some ['t', 'r', 'u', 'e']
  | .bool false => some ['f', 'a', 'l', 's', 'e']
  | .null => some ['n', 'u', 'l', 'l']
  | .undef => none
  | .obj ms => some ('{' :: (JsMembers.segChars ms ++ ['}']))

/-- The serialized members of an object, `"key":value` pairs joined by commas,
skipping members whose value does not serialize. -/
def JsMembers.segChars : JsMembers → List Char
  | .nil => []
  | .cons k v ms =>
    match JsVal.stringifyChars v with
    | none => JsMembers.segChars ms
    | some vc =>
      match ms.dropUnd with
      | .nil => jsonQuote k ++ ':' :: vc
      | _ => jsonQuote k ++ ':' :: vc ++ ',' :: JsMembers.segChars ms

/-- Drop the members a `JSON.stringify` would skip (those with `undefined` values). -/
def JsMembers.dropUnd : JsMembers → JsMembers
  | .nil => .nil
  | .cons k v ms =>
    match v with
    | .undef => JsMembers.dropUnd ms
    | _ => .cons k v (JsMembers.dropUnd ms)

end

/-- `JSON.stringify` as a string-valued function on values that serialize
(objects always do; this is what the data-map normalizers call). -/
def jsonStringify (v : JsVal) : String :=
  ⟨(JsVal.stringifyChars v).getD []⟩

/-! ## The receiving side: `JSON.parse`, on character lists

The receiving client parses the serialized payload back; the parser below models
that step on the (whitespace-free) output format of `JSON.stringify`. -/

/-- Numeric value of a hexadecimal digit character, if it is one. -/
def hexDigitVal (c : Char) : Option Nat :=
  if '0' ≤ c ∧ c ≤ '9' then some (c.toNat - '0'.toNat)
  else if 'a' ≤ c ∧ c ≤ 'f' then some (c.toNat - 'a'.toNat + 10)
  else if 'A' ≤ c ∧ c ≤ 'F' then some (c.toNat - 'A'.toNat + 10)
  else none

/-- Unescaped character for a single-character JSON escape sequence. -/
def jsonUnescape1 (c : Char) : Option Char :=
  if c = '"' then some '"'
  else if c = '\\' then some '\\'
  else if c = '/' then some '/'
  else if c = 'n' then some '\n'
  else if c = 'r' then some '\r'
  else if c = 't' then some '\t'
  else if c = 'b' then some (Char.ofNat 8)
  else if c = 'f' then some (Char.ofNat 12)
  else none

/-- Parse the body of a JSON string (the opening quote already consumed),
returning the decoded characters and the remainder after the closing quote. -/
def readJString : List Char → Option (List Char × List Char)
  | [] => none
  | c :: rest =>
    if c = '"' then some ([], rest)
    else if c = '\\' then
      match rest with
      | 'u' :: h1 :: h2 :: h3 :: h4 :: rest2 =>
        match hexDigitVal h1, hexDigitVal h2, hexDigitVal h3, hexDigitVal h4 with
        | some a, some b, some c', some d =>
          (readJString rest2).map
            (fun p => (Char.ofNat (((a * 16 + b) * 16 + c') * 16 + d) :: p.1, p.2))
        | _, _, _, _ => none
      | e :: rest2 =>
        match jsonUnescape1 e with
        | some d => (readJString rest2).map (fun p => (d :: p.1, p.2))
        | none => none
      | [] => none
    else (readJString rest).map (fun p => (c :: p.1, p.2))
termination_by cs => cs.length
decreasing_by all_goals simp_arith

/-- Maximal run of decimal digits, accumulated into a value. -/
def readDigits (acc : Nat) : List Char → Nat × List Char
  | [] => (acc, [])
  | c :: cs =>
    if c.isDigit then readDigits (acc * 10 + (c.toNat - '0'.toNat)) cs
    else (acc, c :: cs)

/-- Parse an integer-valued JSON number: optional minus sign, then digits. -/
def readJNumber : List Char → Option (Int × List Char)
  | [] => none
  | c :: cs =>
    if c = '-' then
      match cs with
      | [] => none
      | c2 :: cs2 =>
        if c2.isDigit then
          let p := readDigits (c2.toNat - '0'.toNat) cs2
          some (-(p.1 : Int), p.2)
        else none
    else if c.isDigit then
      let p := readDigits (c.toNat - '0'.toNat) cs
      some ((p.1 : Int), p.2)
    else none

mutual

/-- Parse one JSON value (fuel-bounded recursion). -/
def readJVal : Nat → List Char → Option (JsVal × List Char)
  | 0, _ => none
  | fuel + 1, cs =>
    match cs with
    | [] => none
    | c :: rest =>
      if c = '"' then (readJString rest).map (fun p => (JsVal.str ⟨p.1⟩, p.2))
      else if c = '{' then
        match rest with
        | '}' :: r => some (JsVal.obj .nil, r)
        | _ => (readJMembers fuel rest).map (fun p => (JsVal.obj p.1, p.2))
      else if c = 't' then
        match rest with
        | 'r' :: 'u' :: 'e' :: r => some (JsVal.bool true, r)
        | _ => none
      else if c = 'f' then
        match rest with
        | 'a' :: 'l' :: 's' :: 'e' :: r => some (JsVal.bool false, r)
        | _ => none
      else if c = 'n' then
        match rest with
        | 'u' :: 'l' :: 'l' :: r => some (JsVal.null, r)
        | _ => none
      else (readJNumber (c :: rest)).map (fun p => (JsVal.num p.1, p.2))

/-- Parse one-or-more `"key":value` members followed by the closing brace
(the empty object is handled in `readJVal`). -/
def readJMembers : Nat → List Char → Option (JsMembers × List Char)
  | 0, _ => none
  | fuel + 1, cs =>
    match cs with
    | '"' :: rest =>
      match readJString rest with
      | some (k, ':' :: r2) =>
        match readJVal fuel r2 with
        | some (v, ',' :: r3) =>
          (readJMembers fuel r3).map (fun p => (JsMembers.cons ⟨k⟩ v p.1, p.2))
        | some (v, '}' :: r3) => some (JsMembers.cons ⟨k⟩ v .nil, r3)
        | _ => none
      | _ => none
    | _ => none

end

mutual

/-- Fuel sufficient to parse the serialization of a value. -/
def JsVal.fuelBound : JsVal → Nat
  | .obj ms => ms.fuelBound + 1
  | _ => 1

/-- Fuel sufficient to parse a serialized member list. -/
def JsMembers.fuelBound : JsMembers → Nat
  | .nil => 1
  | .cons _ v ms => Nat.max (JsVal.fuelBound v) (JsMembers.fuelBound ms) + 1

end

mutual

/-- The value contains no `undefined` anywhere (such values are exactly the
JSON-representable ones, which survive the serialize/parse round trip). -/
def JsVal.noUndef : JsVal → Bool
  | .undef => false
  | .obj ms => ms.noUndef
  | _ => true

/-- No member value contains `undefined`. -/
def JsMembers.noUndef : JsMembers → Bool
  | .nil => true
  | .cons _ v ms => JsVal.noUndef v && JsMembers.noUndef ms

end

/-- `JSON.parse` of a complete string, requiring all input consumed. -/
def jsonParse (s : String) : Option JsVal :=
  match readJVal (s.length + 1) s.data with
  | some (v, []) => some v
  | _ => none

/-! ## Codec round trip: numbers -/

/-- A remainder that cannot extend a number: empty or headed by a non-digit. -/
def numStop : List Char → Bool
  | [] => true
  | c :: _ => !c.isDigit

theorem digit_char_spec : ∀ k, k < 10 →
    (Char.ofNat ('0'.toNat + k)).isDigit = true ∧
      (Char.ofNat ('0'.toNat + k)).toNat - '0'.toNat = k := by decide

theorem isDigit_toNat {c : Char} (h : c.isDigit = true) :
    48 ≤ c.toNat ∧ c.toNat ≤ 57 := by
  simpa [Char.isDigit] using h

/-- `natChars` in last-digit-first form (one unfolding). -/
theorem natChars_unfold (n : Nat) :
    natChars n
      = (if n < 10 then [] else natChars (n / 10)) ++ [Char.ofNat ('0'.toNat + n % 10)] := by
  rw [natChars]
  by_cases h : n < 10
  · simp [h, Nat.mod_eq_of_lt h]
  · simp [h]

theorem natChars_ne_nil (n : Nat) : natChars n ≠ [] := by
  rw [natChars_unfold]
  simp

theorem natChars_all_digits (n : Nat) : ∀ c ∈ natChars n, c.isDigit = true := by
  induction n using Nat.strongRecOn with
  | _ n ih =>
    intro c hc
    rw [natChars_unfold] at hc
    rcases List.mem_append.mp hc with h | h
    · by_cases h10 : n < 10
      · simp [h10] at h
      · exact ih (n / 10) (Nat.div_lt_self (by omega) (by omega)) c (by simpa [h10] using h)
    · rw [List.mem_singleton] at h
      subst h
      exact (digit_char_spec (n % 10) (Nat.mod_lt _ (by omega))).1

theorem readDigits_stop {rest : List Char} (h : numStop rest = true) (acc : Nat) :
    readDigits acc rest = (acc, rest) := by
  cases rest with
  | nil => rfl
  | cons c t =>
    simp only [numStop, Bool.not_eq_true'] at h
    simp [readDigits, h]

/-- Reading the digits of `n` folds `n` onto the accumulator. -/
theorem readDigits_natChars (n : Nat) : ∀ (acc : Nat) (rest : List Char),
    readDigits acc (natChars n ++ rest)
      = readDigits (acc * 10 ^ (natChars n).length + n) rest := by
  induction n using Nat.strongRecOn with
  | _ n ih =>
    intro acc rest
    rw [natChars_unfold]
    by_cases h10 : n < 10
    · have hd := digit_char_spec n (by omega)
      have hmod : n % 10 = n := Nat.mod_eq_of_lt h10
      simp only [if_pos h10, List.nil_append, hmod, List.singleton_append, readDigits, hd.1,
        if_pos]
      have : acc * 10 + ((Char.ofNat ('0'.toNat + n)).toNat - '0'.toNat) = acc * 10 ^ 1 + n := by
        rw [hd.2]; ring
      rw [this]
      simp
    · have hd := digit_char_spec (n % 10) (Nat.mod_lt _ (by omega))
      simp only [if_neg h10, List.append_assoc, List.singleton_append]
      rw [ih (n / 10) (Nat.div_lt_self (by omega) (by omega))]
      simp only [readDigits, hd.1, if_pos, hd.2]
      have harith : (acc * 10 ^ (natChars (n / 10)).length + n / 10) * 10 + n % 10
          = acc * 10 ^ ((natChars (n / 10)).length + 1) + n := by
        rw [pow_succ]
        have := Nat.div_add_mod n 10
        ring_nf
        omega
      rw [harith]
      congr 1
      simp

/-- The digit run of `n` reads back as exactly `n`, stopping at the remainder. -/
theorem readDigits_natChars_stop (n : Nat) {rest : List Char} (h : numStop rest = true) :
    readDigits 0 (natChars n ++ rest) = (n, rest) := by
  rw [readDigits_natChars, readDigits_stop h]
  simp

/-- The number codec round-trip: `readJNumber` inverts `intChars`. -/
theorem readJNumber_intChars (i : Int) {rest : List Char} (h : numStop rest = true) :
    readJNumber (intChars i ++ rest) = some (i, rest) := by
  obtain ⟨d, ds, hds⟩ : ∃ d ds, natChars i.natAbs = d :: ds := by
    cases hn : natChars i.natAbs with
    | nil => exact absurd hn (natChars_ne_nil _)
    | cons d ds => exact ⟨d, ds, rfl⟩
  have hdd : d.isDigit = true := natChars_all_digits i.natAbs d (by rw [hds]; simp)
  have hdne : d ≠ '-' := by
    intro hE
    have := isDigit_toNat hdd
    rw [hE] at this
    simp at this
  have hread : readDigits (d.toNat - '0'.toNat) (ds ++ rest) = (i.natAbs, rest) := by
    have h0 := readDigits_natChars_stop i.natAbs h
    rw [hds] at h0
    simpa [readDigits, hdd] using h0
  by_cases hneg : i < 0
  · have : intChars i = '-' :: natChars i.natAbs := by simp [intChars, hneg]
    rw [this, hds]
    simp only [List.cons_append, readJNumber, if_pos rfl, hdd, if_pos, hread]
    congr 2
    omega
  · have : intChars i = natChars i.natAbs := by simp [intChars, hneg]
    rw [this, hds]
    simp only [List.cons_append, readJNumber, if_neg hdne, hdd, if_pos, hread]
    congr 2
    omega

/-! ## Codec round trip: strings -/

theorem hexChar_val : ∀ k, k < 16 → hexDigitVal (hexChar k) = some k := by decide

/-- Parsing one escaped character undoes the escaping of that character. -/
theorem readJString_escapeChar (c : Char) (rest : List Char) :
    readJString (jsonEscapeChar c ++ rest)
      = (readJString rest).map (fun p => (c :: p.1, p.2)) := by
  by_cases h1 : c = '"'
  · subst h1; rw [jsonEscapeChar, if_pos rfl, List.cons_append, readJString.eq_def]
    simp [jsonUnescape1]
  by_cases h2 : c = '\\'
  · subst h2
    rw [jsonEscapeChar]
    rw [if_neg (by decide), if_pos rfl, List.cons_append, readJString.eq_def]
    simp [jsonUnescape1]
  by_cases h3 : c = '\n'
  · subst h3
    rw [jsonEscapeChar]
    rw [if_neg (by decide), if_neg (by decide), if_pos rfl, List.cons_append,
      readJString.eq_def]
    simp [jsonUnescape1]
  by_cases h4 : c = '\r'
  · subst h4
    rw [jsonEscapeChar]
    rw [if_neg (by decide), if_neg (by decide), if_neg (by decide), if_pos rfl,
      List.cons_append, readJString.eq_def]
    simp [jsonUnescape1]
  by_cases h5 : c = '\t'
  · subst h5
    rw [jsonEscapeChar]
    rw [if_neg (by decide), if_neg (by decide), if_neg (by decide), if_neg (by decide),
      if_pos rfl, List.cons_append, readJString.eq_def]
    simp [jsonUnescape1]
  by_cases h6 : c = Char.ofNat 8
  · subst h6
    rw [jsonEscapeChar]
    rw [if_neg (by decide), if_neg (by decide), if_neg (by decide), if_neg (by decide),
      if_neg (by decide), if_pos rfl, List.cons_append, readJString.eq_def]
    simp [jsonUnescape1]
  by_cases h7 : c = Char.ofNat 12
  · subst h7
    rw [jsonEscapeChar]
    rw [if_neg (by decide), if_neg (by decide), if_neg (by decide), if_neg (by decide),
      if_neg (by decide), if_neg (by decide), if_pos rfl, List.cons_append,
      readJString.eq_def]
    simp [jsonUnescape1]
  by_cases h8 : c.toNat < 32
  · have hhi : hexDigitVal (hexChar (c.toNat / 16)) = some (c.toNat / 16) :=
      hexChar_val _ (by omega)
    have hlo : hexDigitVal (hexChar (c.toNat % 16)) = some (c.toNat % 16) :=
      hexChar_val _ (Nat.mod_lt _ (by omega))
    have hval0 : hexDigitVal '0' = some 0 := by decide
    simp only [jsonEscapeChar, if_neg h1, if_neg h2, if_neg h3, if_neg h4, if_neg h5,
      if_neg h6, if_neg h7, if_pos h8, List.cons_append, List.nil_append]
    rw [readJString.eq_def]
    simp +decide only [hval0, hhi, hlo]
    rw [show ((0 * 16 + 0) * 16 + c.toNat / 16) * 16 + c.toNat % 16 = c.toNat by omega,
      Char.ofNat_toNat]
    simp
  · simp only [jsonEscapeChar, if_neg h1, if_neg h2, if_neg h3, if_neg h4, if_neg h5,
      if_neg h6, if_neg h7, if_neg h8, List.cons_append, List.nil_append]
    rw [readJString.eq_def]
    simp [h1, h2]

/-- Parsing an escaped string body stops exactly at the closing quote. -/
theorem readJString_jsonEscape (cs : List Char) : ∀ rest : List Char,
    readJString (jsonEscape cs ++ '"' :: rest) = some (cs, rest) := by
  induction cs with
  | nil =>
    intro rest
    rw [jsonEscape, List.nil_append, readJString.eq_def]
    simp
  | cons c cs ih =>
    intro rest
    rw [jsonEscape, List.append_assoc, readJString_escapeChar, ih]
    rfl

/-- Parsing a rendered string literal recovers the string. -/
theorem readJString_jsonQuote (s : String) (rest : List Char) :
    readJString (jsonEscape s.data ++ '"' :: rest) = some (s.data, rest) :=
  readJString_jsonEscape s.data rest

/-! ## Codec round trip: values and objects -/

theorem digit_ne_heads {c : Char} (h : c.isDigit = true) :
    c ≠ '"' ∧ c ≠ '{' ∧ c ≠ 't' ∧ c ≠ 'f' ∧ c ≠ 'n' ∧ c ≠ '-' := by
  refine ⟨?_, ?_, ?_, ?_, ?_, ?_⟩ <;> (intro hE; subst hE; exact absurd h (by decide))

theorem dropUnd_of_noUndef : ∀ {ms : JsMembers}, ms.noUndef = true → ms.dropUnd = ms
  | .nil, _ => rfl
  | .cons k v ms, h => by
    simp only [JsMembers.noUndef, Bool.and_eq_true] at h
    cases v with
    | undef => exact absurd h.1 (by simp [JsVal.noUndef])
    | str s => simp [JsMembers.dropUnd, dropUnd_of_noUndef h.2]
    | num n => simp [JsMembers.dropUnd, dropUnd_of_noUndef h.2]
    | bool b => simp [JsMembers.dropUnd, dropUnd_of_noUndef h.2]
    | null => simp [JsMembers.dropUnd, dropUnd_of_noUndef h.2]
    | obj ms' => simp [JsMembers.dropUnd, dropUnd_of_noUndef h.2]

theorem stringify_isSome : ∀ {v : JsVal}, v.noUndef = true → ∃ l, v.stringifyChars = some l
  | .str s, _ => ⟨_, rfl⟩
  | .num n, _ => ⟨_, rfl⟩
  | .bool true, _ => ⟨_, rfl⟩
  | .bool false, _ => ⟨_, rfl⟩
  | .null, _ => ⟨_, rfl⟩
  | .undef, h => absurd h (by simp [JsVal.noUndef])
  | .obj ms, _ => ⟨_, rfl⟩

/-- The number round-trip lifted to `readJVal`'s head dispatch. -/
theorem readJVal_num (n : Int) (f : Nat) (rest : List Char) (hrest : numStop rest = true) :
    readJVal (f + 1) (intChars n ++ rest) = some (JsVal.num n, rest) := by
  by_cases hneg : n < 0
  · have hi : intChars n = '-' :: natChars n.natAbs := by simp [intChars, hneg]
    rw [hi, List.cons_append]
    simp only [readJVal]
    simp only [if_neg (show ¬('-' = '"') by decide), if_neg (show ¬('-' = '{') by decide),
      if_neg (show ¬('-' = 't') by decide), if_neg (show ¬('-' = 'f') by decide),
      if_neg (show ¬('-' = 'n') by decide)]
    rw [← List.cons_append, ← hi, readJNumber_intChars n hrest]
    rfl
  · obtain ⟨d, ds, hds⟩ : ∃ d ds, natChars n.natAbs = d :: ds := by
      cases hn : natChars n.natAbs with
      | nil => exact absurd hn (natChars_ne_nil _)
      | cons d ds => exact ⟨d, ds, rfl⟩
    have hdd : d.isDigit = true := natChars_all_digits n.natAbs d (by rw [hds]; simp)
    obtain ⟨n1, n2, n3, n4, n5, _⟩ := digit_ne_heads hdd
    have hi : intChars n = d :: ds := by rw [intChars, if_neg hneg, hds]
    rw [hi, List.cons_append]
    simp only [readJVal]
    simp only [if_neg n1, if_neg n2, if_neg n3, if_neg n4, if_neg n5]
    rw [← List.cons_append, ← hi, readJNumber_intChars n hrest]
    rfl

/-- `fuelBound` is always positive (values). -/
theorem JsVal.vfuelBound_pos : ∀ (v : JsVal), 1 ≤ v.fuelBound := by
  intro v
  cases v <;> simp [JsVal.fuelBound]

/-- `fuelBound` is always positive (member lists). -/
theorem JsMembers.mfuelBound_pos : ∀ (ms : JsMembers), 1 ≤ ms.fuelBound := by
  intro ms
  cases ms <;> simp [JsMembers.fuelBound]

theorem not_vfuel_zero {v : JsVal} : ¬(v.fuelBound ≤ 0) := by
  have := JsVal.vfuelBound_pos v
  omega

theorem not_mfuel_zero {ms : JsMembers} : ¬(ms.fuelBound ≤ 0) := by
  have := JsMembers.mfuelBound_pos ms
  omega

/-- The serialized segment of a final kept member. -/
theorem segChars_cons_nil (k : String) (v : JsVal) (vc : List Char)
    (hvc : v.stringifyChars = some vc) :
    JsMembers.segChars (.cons k v .nil) = jsonQuote k ++ ':' :: vc := by
  simp [JsMembers.segChars, hvc, JsMembers.dropUnd]

/-- The serialized segment of a member followed by further kept members. -/
theorem segChars_cons_cons (k : String) (v : JsVal) (vc : List Char)
    (k' : String) (v' : JsVal) (ms' : JsMembers)
    (hvc : v.stringifyChars = some vc)
    (hdrop : (JsMembers.cons k' v' ms').dropUnd = JsMembers.cons k' v' ms') :
    JsMembers.segChars (.cons k v (.cons k' v' ms'))
      = jsonQuote k ++ ':' :: vc ++ ',' :: JsMembers.segChars (.cons k' v' ms') := by
  rw [JsMembers.segChars, hvc, hdrop]

/-- The parser branch for the empty object. -/
theorem readJVal_obj_nil (f : Nat) (r : List Char) :
    readJVal (f + 1) ('{' :: '}' :: r) = some (JsVal.obj .nil, r) := by
  simp [readJVal]

/-- The parser branch for a nonempty object defers to `readJMembers`. -/
theorem readJVal_obj_go (f : Nat) (c : Char) (T : List Char) (hc : c ≠ '}') :
    readJVal (f + 1) ('{' :: c :: T)
      = (readJMembers f (c :: T)).map (fun p => (JsVal.obj p.1, p.2)) := by
  simp [readJVal, hc]

mutual

/-- **Codec round-trip, values**: parsing a serialized JSON-representable value
(with any remainder that cannot extend a number) recovers the value exactly. -/
theorem readJVal_stringify : ∀ (v : JsVal), v.noUndef = true →
    ∀ (l : List Char), v.stringifyChars = some l →
    ∀ (fuel : Nat), v.fuelBound ≤ fuel →
    ∀ (rest : List Char), numStop rest = true →
    readJVal fuel (l ++ rest) = some (v, rest)
  | .str s, _, l, hl, fuel, hfuel, rest, _ => by
    obtain rfl : jsonQuote s = l := by simpa [JsVal.stringifyChars] using hl
    cases fuel with
    | zero => exact absurd hfuel not_vfuel_zero
    | succ f =>
      rw [jsonQuote, List.cons_append]
      simp only [readJVal]
      simp only [if_pos rfl, List.append_assoc, List.singleton_append,
        readJString_jsonEscape]
      rfl
  | .num n, _, l, hl, fuel, hfuel, rest, hrest => by
    obtain rfl : intChars n = l := by simpa [JsVal.stringifyChars] using hl
    cases fuel with
    | zero => exact absurd hfuel not_vfuel_zero
    | succ f => exact readJVal_num n f rest hrest
  | .bool true, _, l, hl, fuel, hfuel, rest, _ => by
    obtain rfl : ['t', 'r', 'u', 'e'] = l := by simpa [JsVal.stringifyChars] using hl
    cases fuel with
    | zero => exact absurd hfuel not_vfuel_zero
    | succ f =>
      simp [readJVal]
  | .bool false, _, l, hl, fuel, hfuel, rest, _ => by
    obtain rfl : ['f', 'a', 'l', 's', 'e'] = l := by simpa [JsVal.stringifyChars] using hl
    cases fuel with
    | zero => exact absurd hfuel not_vfuel_zero
    | succ f =>
      simp [readJVal]
  | .null, _, l, hl, fuel, hfuel, rest, _ => by
    obtain rfl : ['n', 'u', 'l', 'l'] = l := by simpa [JsVal.stringifyChars] using hl
    cases fuel with
    | zero => exact absurd hfuel not_vfuel_zero
    | succ f =>
      simp [readJVal]
  | .undef, h, l, hl, fuel, hfuel, rest, _ => by
    exact absurd h (by simp [JsVal.noUndef])
  | .obj .nil, _, l, hl, fuel, hfuel, rest, _ => by
    obtain rfl : ['{', '}'] = l := by
      simpa [JsVal.stringifyChars, JsMembers.segChars] using hl
    cases fuel with
    | zero => exact absurd hfuel not_vfuel_zero
    | succ f => exact readJVal_obj_nil f rest
  | .obj (.cons k v ms), hno, l, hl, fuel, hfuel, rest, _ => by
    obtain rfl : '{' :: (JsMembers.segChars (.cons k v ms) ++ ['}']) = l := by
      simpa [JsVal.stringifyChars] using hl
    have hno' : (JsMembers.cons k v ms).noUndef = true := by
      simpa [JsVal.noUndef] using hno
    cases fuel with
    | zero => exact absurd hfuel not_vfuel_zero
    | succ f =>
      have hf : (JsMembers.cons k v ms).fuelBound ≤ f := by
        simp only [JsVal.fuelBound] at hfuel
        omega
      have hmem := readJMembers_segChars k v ms hno' f hf rest
      have hvno : v.noUndef = true := by
        have h2 := hno'
        simp only [JsMembers.noUndef, Bool.and_eq_true] at h2
        exact h2.1
      obtain ⟨vc, hvc⟩ : ∃ vc, v.stringifyChars = some vc := stringify_isSome hvno
      obtain ⟨X, hX⟩ : ∃ X, JsMembers.segChars (.cons k v ms) = '"' :: X := by
        rw [JsMembers.segChars, hvc]
        cases ms.dropUnd with
        | nil => exact ⟨_, by rw [jsonQuote]; rfl⟩
        | cons a b c => exact ⟨_, by rw [jsonQuote]; rfl⟩
      have hshape : ('{' :: (JsMembers.segChars (.cons k v ms) ++ ['}'])) ++ rest
          = '{' :: ('"' :: (X ++ '}' :: rest)) := by
        rw [hX]
        simp
      rw [hshape, readJVal_obj_go f '"' (X ++ '}' :: rest) (by decide)]
      rw [show ('"' : Char) :: (X ++ '}' :: rest)
            = JsMembers.segChars (.cons k v ms) ++ '}' :: rest from by rw [hX]; rfl]
      rw [hmem]
      rfl

/-- **Codec round-trip, members**: parsing the serialized members of a nonempty
JSON-representable object up to the closing brace recovers the member list. -/
theorem readJMembers_segChars : ∀ (k : String) (v : JsVal) (ms : JsMembers),
    (JsMembers.cons k v ms).noUndef = true →
    ∀ (fuel : Nat), (JsMembers.cons k v ms).fuelBound ≤ fuel →
    ∀ (rest : List Char),
    readJMembers fuel (JsMembers.segChars (.cons k v ms) ++ '}' :: rest)
      = some (.cons k v ms, rest)
  | k, v, .nil, hno, fuel, hfuel, rest => by
    have hvno : v.noUndef = true := by
      simpa [JsMembers.noUndef] using hno
    obtain ⟨vc, hvc⟩ := stringify_isSome hvno
    cases fuel with
    | zero => exact absurd hfuel not_mfuel_zero
    | succ f =>
      simp only [JsMembers.fuelBound] at hfuel
      have hmax : Nat.max v.fuelBound JsMembers.nil.fuelBound ≤ f := by
        simp only [JsMembers.fuelBound] at hfuel ⊢
        omega
      have hfv : v.fuelBound ≤ f := le_trans (Nat.le_max_left _ _) hmax
      have hval := readJVal_stringify v hvno vc hvc f hfv ('}' :: rest) rfl
      rw [segChars_cons_nil k v vc hvc, jsonQuote]
      have hshape : (('"' :: (jsonEscape k.data ++ ['"'])) ++ ':' :: vc) ++ '}' :: rest
          = '"' :: (jsonEscape k.data ++ '"' :: (':' :: (vc ++ '}' :: rest))) := by
        simp
      rw [hshape]
      simp only [readJMembers]
      simp only [readJString_jsonEscape, hval]
  | k, v, .cons k' v' ms', hno, fuel, hfuel, rest => by
    simp only [JsMembers.noUndef, Bool.and_eq_true] at hno
    obtain ⟨hvno, hrno⟩ := hno
    obtain ⟨vc, hvc⟩ := stringify_isSome hvno
    cases fuel with
    | zero => exact absurd hfuel not_mfuel_zero
    | succ f =>
      have hrno' : (JsMembers.cons k' v' ms').noUndef = true := by
        simp [JsMembers.noUndef, hrno]
      simp only [JsMembers.fuelBound] at hfuel
      have hmax : Nat.max v.fuelBound (Nat.max v'.fuelBound ms'.fuelBound + 1) ≤ f := by
        omega
      have hfv : v.fuelBound ≤ f := le_trans (Nat.le_max_left _ _) hmax
      have hfm : (JsMembers.cons k' v' ms').fuelBound ≤ f := by
        simp only [JsMembers.fuelBound]
        exact le_trans (Nat.le_max_right _ _) hmax
      have hval := readJVal_stringify v hvno vc hvc f hfv
        (',' :: (JsMembers.segChars (.cons k' v' ms') ++ '}' :: rest)) rfl
      have hmem := readJMembers_segChars k' v' ms' hrno' f hfm rest
      rw [segChars_cons_cons k v vc k' v' ms' hvc (dropUnd_of_noUndef hrno'), jsonQuote]
      have hshape : (('"' :: (jsonEscape k.data ++ ['"'])) ++ ':' :: vc
              ++ ',' :: JsMembers.segChars (.cons k' v' ms')) ++ '}' :: rest
          = '"' :: (jsonEscape k.data ++ '"' :: (':' :: (vc
              ++ ',' :: (JsMembers.segChars (.cons k' v' ms') ++ '}' :: rest)))) := by
        simp
      rw [hshape]
      simp only [readJMembers]
      simp only [readJString_jsonEscape, hval, hmem]
      rfl

end

/-! ## Codec round trip, top level -/

mutual

/-- The fuel bound of a value is covered by the length of its serialization. -/
theorem JsVal.vfuelBound_le_len : ∀ (v : JsVal), v.noUndef = true →
    ∀ (l : List Char), v.stringifyChars = some l → v.fuelBound ≤ l.length
  | .str s, _, l, hl => by
    obtain rfl : jsonQuote s = l := by simpa [JsVal.stringifyChars] using hl
    simp [JsVal.fuelBound, jsonQuote]
  | .num n, _, l, hl => by
    obtain rfl : intChars n = l := by simpa [JsVal.stringifyChars] using hl
    have hne : natChars n.natAbs ≠ [] := natChars_ne_nil _
    have : 1 ≤ (natChars n.natAbs).length := by
      cases hx : natChars n.natAbs with
      | nil => exact absurd hx hne
      | cons a t => simp
    by_cases hneg : n < 0 <;> simp [JsVal.fuelBound, intChars, hneg]
    all_goals omega
  | .bool true, _, l, hl => by
    obtain rfl : ['t', 'r', 'u', 'e'] = l := by simpa [JsVal.stringifyChars] using hl
    simp [JsVal.fuelBound]
  | .bool false, _, l, hl => by
    obtain rfl : ['f', 'a', 'l', 's', 'e'] = l := by simpa [JsVal.stringifyChars] using hl
    simp [JsVal.fuelBound]
  | .null, _, l, hl => by
    obtain rfl : ['n', 'u', 'l', 'l'] = l := by simpa [JsVal.stringifyChars] using hl
    simp [JsVal.fuelBound]
  | .undef, h, l, hl => absurd h (by simp [JsVal.noUndef])
  | .obj ms, h, l, hl => by
    obtain rfl : '{' :: (JsMembers.segChars ms ++ ['}']) = l := by
      simpa [JsVal.stringifyChars] using hl
    have hm := JsMembers.mfuelBound_le_len ms (by simpa [JsVal.noUndef] using h)
    simp only [JsVal.fuelBound, List.length_cons, List.length_append,
      List.length_singleton]
    omega

/-- The fuel bound of a member list is covered by its serialized segments. -/
theorem JsMembers.mfuelBound_le_len : ∀ (ms : JsMembers), ms.noUndef = true →
    ms.fuelBound ≤ (JsMembers.segChars ms).length + 1
  | .nil, _ => by simp [JsMembers.fuelBound, JsMembers.segChars]
  | .cons k v ms, h => by
    have hparts : v.noUndef = true ∧ ms.noUndef = true := by
      simpa [JsMembers.noUndef, Bool.and_eq_true] using h
    obtain ⟨vc, hvc⟩ := stringify_isSome hparts.1
    have hv := JsVal.vfuelBound_le_len v hparts.1 vc hvc
    have hquote : 2 ≤ (jsonQuote k).length := by simp [jsonQuote]
    cases ms with
    | nil =>
      rw [segChars_cons_nil k v vc hvc]
      simp only [JsMembers.fuelBound, List.length_append, List.length_cons]
      have h1 : 1 ≤ vc.length := le_trans (JsVal.vfuelBound_pos v) hv
      have hmax : Nat.max v.fuelBound 1 ≤ vc.length := Nat.max_le.mpr ⟨hv, h1⟩
      omega
    | cons k' v' ms' =>
      have hms : (JsMembers.cons k' v' ms').noUndef = true := hparts.2
      have hm := JsMembers.mfuelBound_le_len (JsMembers.cons k' v' ms') hms
      rw [segChars_cons_cons k v vc k' v' ms' hvc (dropUnd_of_noUndef hms)]
      simp only [JsMembers.fuelBound] at hm ⊢
      simp only [List.length_append, List.length_cons]
      have hmax : Nat.max v.fuelBound (Nat.max v'.fuelBound ms'.fuelBound + 1)
          ≤ vc.length
            + (JsMembers.segChars (JsMembers.cons k' v' ms')).length + 1 :=
        Nat.max_le.mpr ⟨by omega, by omega⟩
      omega

end

/-- **The codec round trip at `String` level**: `JSON.parse` recovers any
JSON-representable value from its `JSON.stringify` serialization.  This is the
"JSON-round-tripping yields the original structure" leg of the string-coercion
property. -/
theorem jsonParse_jsonStringify (v : JsVal) (h : v.noUndef = true) :
    jsonParse (jsonStringify v) = some v := by
  obtain ⟨l, hl⟩ := stringify_isSome h
  have hfuel : v.fuelBound ≤ l.length + 1 :=
    le_trans (JsVal.vfuelBound_le_len v h l hl) (by omega)
  have hrun := readJVal_stringify v h l hl (l.length + 1) hfuel [] rfl
  rw [List.append_nil] at hrun
  have hs : jsonStringify v = ⟨l⟩ := by rw [jsonStringify, hl]; rfl
  rw [hs, jsonParse]
  have hlen : (⟨l⟩ : String).length = l.length := rfl
  have hdata : (⟨l⟩ : String).data = l := rfl
  rw [hlen, hdata, hrun]

/-! ## Data-map normalization

Embeds `normalizeDataMapForAndroid` / `normalizeDataMapForIOS`
(`src/api/sendCallInvitation.js` lines 76-119).  The output entries are kept as
`JsVal` so the theorems can speak about which values are strings. -/

/-- JS `String(v)` on the values the normalizers feed to it. -/
def jsToString : JsVal → String
  | .str s => s
  | .num n => ⟨intChars n⟩
  | .bool true => "true"
  | .bool false => "false"
  | .null => "null"
  | .undef => "undefined"
  | .obj _ => "[object Object]"

/-- JS `parseInt(s, 10)`: skip leading whitespace, optional sign, then the
leading run of decimal digits; `none` models `NaN`. -/
def jsParseInt10 (s : String) : Option Int :=
  let cs := s.data.dropWhile (fun c => c = ' ' || c = '\t' || c = '\n' || c = '\r')
  match cs with
  | '-' :: c :: cs2 =>
    if c.isDigit then some (-((readDigits (c.toNat - '0'.toNat) cs2).1 : Int)) else none
  | '+' :: c :: cs2 =>
    if c.isDigit then some ((readDigits (c.toNat - '0'.toNat) cs2).1 : Int) else none
  | c :: cs2 =>
    if c.isDigit then some ((readDigits (c.toNat - '0'.toNat) cs2).1 : Int) else none
  | [] => none

/-- The value stored for a CallKit numeric field on iOS:
`typeof v === 'number' ? v : parseInt(v, 10) || 0` (source line 106). -/
def iosNumericValue (v : JsVal) : Int :=
  match v with
  | .num n => n
  | .str s => (jsParseInt10 s).getD 0
  | _ => 0

/-- `normalizeDataMapForAndroid` (source lines 76-92): drop `null`/`undefined`,
keep strings, JSON-encode objects, `String(...)` everything else. -/
def normalizeDataMapForAndroid (entries : List (String × JsVal)) :
    List (String × JsVal) :=
  entries.filterMap (fun kv =>
    match kv.2 with
    | .null => none
    | .undef => none
    | .str s => some (kv.1, JsVal.str s)
    | .obj ms => some (kv.1, JsVal.str (jsonStringify (.obj ms)))
    | v => some (kv.1, JsVal.str (jsToString v)))

/-- The fields iOS CallKit requires as numbers (source line 99). -/
def iosNumericFields : List String := ["type", "duration"]

/-- `normalizeDataMapForIOS` (source lines 94-119): like the Android
normalization, but the fields in `iosNumericFields` are kept as actual numbers. -/
def normalizeDataMapForIOS (entries : List (String × JsVal)) :
    List (String × JsVal) :=
  entries.filterMap (fun kv =>
    match kv.2 with
    | .null => none
    | .undef => none
    | v =>
      if iosNumericFields.contains kv.1 then
        some (kv.1, JsVal.num (iosNumericValue v))
      else
        match v with
        | .obj ms => some (kv.1, JsVal.str (jsonStringify (.obj ms)))
        | v' => some (kv.1, JsVal.str (jsToString v')))

/-- `normalizeDataMap` of the FCM-only and Agora revisions
(`src/unnamed/part_001` lines 80-89, `src/unnamed/part_002` lines 88-97):
behaviourally the all-strings normalization. -/
def normalizeDataMap (entries : List (String × JsVal)) : List (String × JsVal) :=
  entries.filterMap (fun kv =>
    match kv.2 with
    | .null => none
    | .undef => none
    | .str s => some (kv.1, JsVal.str s)
    | .obj ms => some (kv.1, JsVal.str (jsonStringify (.obj ms)))
    | v => some (kv.1, JsVal.str (jsToString v)))

/-! ## CORS policy resolver

Embeds `isLocalhostOrigin` and `buildCorsHeaders`
(`src/api/sendCallInvitation.js` lines 15-73).  The `origin` argument is
`Option String`: `none` is an absent `Origin` header (`undefined` in JS). -/

/-- The compiled-in allow-list (source lines 15-20), used when the
`ALLOWED_ORIGINS` environment variable is not set. -/
def DEFAULT_ALLOWED_ORIGINS : List String :=
  ["https://flirtbate.web.app", "https://your-app.web.app",
   "http://localhost:3000", "http://localhost:5173"]

/-- Strip `p` from the front of `s`, if it is there. -/
def dropPre? : List Char → List Char → Option (List Char)
  | [], s => some s
  | _ :: _, [] => none
  | p :: ps, c :: cs => if c = p then dropPre? ps cs else none

/-- The regex tail `(:\d+)?$`: end of input, or a colon then one-or-more digits. -/
def portTail : List Char → Bool
  | [] => true
  | ':' :: ds => !ds.isEmpty && ds.all (fun c => c.isDigit)
  | _ => false

/-- The regex part `(localhost|127\.0\.0\.1)(:\d+)?$`. -/
def hostTail (r : List Char) : Bool :=
  (match dropPre? "localhost".data r with
   | some t => portTail t
   | none => false)
  || (match dropPre? "127.0.0.1".data r with
      | some t => portTail t
      | none => false)

/-- The whole regex `^https?:\/\/(localhost|127\.0\.0\.1)(:\d+)?$`. -/
def localhostChars (cs : List Char) : Bool :=
  (match dropPre? "http://".data cs with
   | some r => hostTail r
   | none => false)
  || (match dropPre? "https://".data cs with
      | some r => hostTail r
      | none => false)

/-- `isLocalhostOrigin` (source lines 29-32): a falsy origin never matches,
otherwise the localhost regex is tested. -/
def isLocalhostOrigin (origin : Option String) : Bool :=
  match origin with
  | none => false
  | some s => if s.isEmpty then false else localhostChars s.data

/-- The header set `buildCorsHeaders` produces. -/
structure CorsHeaders where
  allowOrigin : String
  allowCredentials : Option String
  vary : String
  allowMethods : String
  allowHeaders : String
  maxAge : String
deriving DecidableEq, Repr

/-- The fixed default of allowed request headers (source lines 55-62). -/
def defaultAllowedHeaders : List String :=
  ["content-type", "authorization", "x-requested-with", "x-client-id",
   "x-firebase-locale", "x-vercel-protection-bypass"]

/-- Insertion-order deduplication, as a JS `Set` built from a list performs. -/
def dedupFirst : List String → List String
  | [] => []
  | x :: xs => x :: dedupFirst (xs.filter (fun y => y ≠ x))
termination_by l => l.length
decreasing_by
  simp only [List.length_cons]
  exact Nat.lt_succ_of_le (List.length_filter_le _ _)

/-- `buildCorsHeaders` (source lines 34-73).  `allowedOrigins` stands for the
operator-configured `ALLOWED_ORIGINS` list. -/
def buildCorsHeaders (allowedOrigins : List String) (origin : Option String)
    (acrHeadersRaw : String) : CorsHeaders :=
  let requested : List String :=
    if acrHeadersRaw.isEmpty then []
    else ((acrHeadersRaw.splitOn ",").map (fun h => h.trim.toLower)).filter
      (fun h => !h.isEmpty)
  let allowedFromEnv := jsTruthyS origin && allowedOrigins.contains (origin.getD "")
  let allowLocal := isLocalhostOrigin origin
  let pair : String × Option String :=
    if jsTruthyS origin && (allowedFromEnv || allowLocal) then
      (origin.getD "", some "true")
    else if !jsTruthyS origin then ("*", none)
    else ("null", none)
  { allowOrigin := pair.1
    allowCredentials := pair.2
    vary := "Origin"
    allowMethods := "POST,OPTIONS"
    allowHeaders := String.intercalate ", "
      (dedupFirst ((defaultAllowedHeaders.map (fun h => h.toLower)) ++ requested))
    maxAge := "3600" }

/-! ## The request pipeline

Embeds the handler of the canonical revision
(`src/api/sendCallInvitation.js` lines 121-504) as a pure function from the
environment, the request and the user collection to a response plus the ordered
list of external side effects. -/

/-- The parsed JSON body of a call-invitation request; `none` is an absent
field (`undefined` after destructuring). -/
structure RequestBody where
  callId : Option String := none
  channelName : Option String := none
  callerUid : Option String := none
  callerName : Option String := none
  recipientId : Option String := none
  agoraAppId : Option String := none
  agoraToken : Option String := none
  callType : Option String := none
  payload : Option (List (String × JsVal)) := none
deriving DecidableEq

/-- An inbound HTTP request as the handler sees it. -/
structure Request where
  method : String
  origin : Option String := none
  acrHeaders : String := ""
  body : Option RequestBody := none
deriving DecidableEq

/-- A stored user profile, the shape the recipient lookup returns. -/
structure Profile where
  username : String
  userId : Option String := none
  name : Option String := none
  imageUrl : Option String := none
  fcmToken : Option String := none
  voipToken : Option String := none
  platform : Option String := none
deriving DecidableEq

/-- The call/room document the handler writes (source lines 231-244). -/
structure RoomDoc where
  channelName : String
  callId : String
  callerUid : String
  callerName : String
  recipientId : String
  createdBy : String
  createdAt : Nat
  isActive : Bool
  callType : String
  platform : String
  agoraAppId : Option String
  agoraToken : Option String
deriving DecidableEq

/-- Which push channel a message went out on. -/
inductive PushKind where
  | voip
  | fcm
deriving DecidableEq

/-- A push message: the channel, the device token, and the data map handed to
the messaging transport. -/
structure PushMsg where
  kind : PushKind
  token : String
  data : List (String × JsVal)
deriving DecidableEq

/-- One observable external side effect of a handler run, in execution order. -/
inductive Effect where
  | storeQuery (collection field value : String)
  | storeWrite (collection key : String) (doc : RoomDoc)
  | pushSend (msg : PushMsg)
deriving DecidableEq

/-- Configuration, the clock, and the outcomes the external store and
transport return when called. -/
structure Env where
  agoraAppIdEnv : Option String := none
  debug : Bool := false
  now : Nat := 0
  writeOk : Bool := true
  writeErrMsg : String := "firestore write failed"
  voipSendResult : Except String String := Except.ok "voip-message-id"
  fcmSendResult : Except String String := Except.ok "fcm-message-id"

/-- The HTTP response.  The `includes*` flags record whether the JSON body
carries the corresponding diagnostic field: the accumulated `logs` array, the
`stack` trace, the echoed raw `received` request fields. -/
structure Response where
  status : Nat
  success : Option Bool := none
  error : Option String := none
  includesLogs : Bool := false
  includesStack : Bool := false
  includesReceived : Bool := false
deriving DecidableEq

/-- The required-fields check (source line 179):
`!callId || !channelName || !callerUid || !recipientId` rejects. -/
def validBody (b : RequestBody) : Bool :=
  jsTruthyS b.callId && jsTruthyS b.channelName
    && jsTruthyS b.callerUid && jsTruthyS b.recipientId

/-- `db.collection("user").where("username", "==", recipientId).limit(1).get()`
(source lines 199-202): the first profile whose `username` equals the id. -/
def findRecipient (users : List Profile) (recipientId : String) : Option Profile :=
  users.find? (fun u => u.username == recipientId)

/-- The room document written by the handler (source lines 231-244). -/
def mkRoomDoc (env : Env) (b : RequestBody) : RoomDoc :=
  let callerUid := b.callerUid.getD ""
  { channelName := b.channelName.getD ""
    callId := b.callId.getD ""
    callerUid := callerUid
    callerName := jsOrS b.callerName callerUid
    recipientId := b.recipientId.getD ""
    createdBy := callerUid
    createdAt := env.now
    isActive := true
    callType := b.callType.getD "video"
    platform := "web"
    agoraAppId := jsOrOpt b.agoraAppId env.agoraAppIdEnv
    agoraToken := jsOrNull b.agoraToken }

/-- The fixed base of the notification payload (source lines 251-289). -/
def mkBasePayload (env : Env) (b : RequestBody) (rec : Profile) :
    List (String × JsVal) :=
  let callId := b.callId.getD ""
  let channelName := b.channelName.getD ""
  let callerUid := b.callerUid.getD ""
  let recipientId := b.recipientId.getD ""
  let callType := b.callType.getD "video"
  let callerName := jsOrS b.callerName callerUid
  let agoraAppIdV := jsOrOpt b.agoraAppId env.agoraAppIdEnv
  [("callId", .str callId),
   ("channelName", .str channelName),
   ("webrtcRoomId", .str channelName),
   ("callerUid", .str callerUid),
   ("callerName", .str callerName),
   ("userId", .str (jsOrS rec.userId recipientId)),
   ("username", .str recipientId),
   ("name", .str (jsOrS rec.name recipientId)),
   ("imageUrl", .str (jsOrS rec.imageUrl "")),
   ("fcmToken", .str (jsOrS rec.fcmToken "")),
   ("callAction", .str "join"),
   ("callType", .str callType),
   ("agoraAppId", optToJs agoraAppIdV),
   ("agoraToken", .str (jsOrS b.agoraToken "")),
   ("agoraChannelName", .str channelName),
   ("id", .str callId),
   ("nameCaller", .str callerName),
   ("avatar", .str (jsOrS rec.imageUrl "")),
   ("handle", .str callerUid),
   ("type", .num (if callType = "video" then 1 else 0)),
   ("duration", .num 30000),
   ("textAccept", .str "Accept"),
   ("textDecline", .str "Decline"),
   ("missedCallNotification",
     .obj (.cons "showNotification" (.bool true) (.cons "count" (.num 1) .nil))),
   ("extra",
     .obj (.cons "agoraAppId" (optToJs agoraAppIdV)
       (.cons "agoraToken" (.str (jsOrS b.agoraToken ""))
         (.cons "channelName" (.str channelName) .nil))))]

/-- `Object.assign({}, base, incoming)` on entry lists: base keys in their
order with values overridden by `incoming` on collision, then the keys only in
`incoming`, in their order. -/
def jsAssign (base incoming : List (String × JsVal)) : List (String × JsVal) :=
  (base.map (fun kv =>
    match incoming.lookup kv.1 with
    | some w => (kv.1, w)
    | none => kv))
  ++ incoming.filter (fun kv => (base.lookup kv.1).isNone)

/-- Whether a transport call succeeded. -/
def exceptOk : Except String String → Bool
  | .ok _ => true
  | .error _ => false

/-- One push attempt against the transport: the message is always dispatched,
and the recorded result mirrors the try/catch around `messaging.send`
(`success: true` on a message id, `success: false` on a caught error). -/
def attemptPush (outcome : Except String String) (msg : PushMsg) :
    Option Bool × List Effect :=
  (some (exceptOk outcome), [Effect.pushSend msg])

/-- `String.prototype.toLowerCase` (ASCII range), as a character map. -/
def jsToLower (s : String) : String :=
  ⟨s.data.map Char.toLower⟩

/-- The case-normalized platform: `(recipientData.platform || "android").toLowerCase()`
(source line 217). -/
def recPlatform (rec : Profile) : String :=
  jsToLower (jsOrS rec.platform "android")

/-- `Object.assign({}, basePayload, incomingPayload || {})` (source line 291). -/
def mergedPayload (env : Env) (b : RequestBody) (rec : Profile) :
    List (String × JsVal) :=
  jsAssign (mkBasePayload env b rec) (b.payload.getD [])

/-- The VoIP push message (source lines 311-341): iOS-normalized data map. -/
def voipMsg (env : Env) (b : RequestBody) (rec : Profile) : PushMsg :=
  { kind := .voip
    token := rec.voipToken.getD ""
    data := normalizeDataMapForIOS (mergedPayload env b rec) }

/-- The FCM push message (source lines 377-427): platform-dependent data map. -/
def fcmMsg (env : Env) (b : RequestBody) (rec : Profile) : PushMsg :=
  { kind := .fcm
    token := rec.fcmToken.getD ""
    data :=
      if recPlatform rec == "ios" then normalizeDataMapForIOS (mergedPayload env b rec)
      else normalizeDataMapForAndroid (mergedPayload env b rec) }

/-- The VoIP dispatch condition (source line 307): `platform === "ios" && voipToken`. -/
def voipCond (rec : Profile) : Bool :=
  recPlatform rec == "ios" && jsTruthyS rec.voipToken

/-- The handler (source lines 121-504), as response plus ordered effects. -/
def handler (env : Env) (req : Request) (users : List Profile) :
    Response × List Effect :=
  if req.method = "OPTIONS" then
    ({ status := 204 }, [])
  else if req.method ≠ "POST" then
    ({ status := 405, error := some "Method not allowed", includesLogs := true }, [])
  else
    let b := req.body.getD {}
    if !validBody b then
      ({ status := 400, error := some "Missing required fields",
         includesLogs := true, includesReceived := true }, [])
    else
      let recipientId := b.recipientId.getD ""
      let qEff := Effect.storeQuery "user" "username" recipientId
      match findRecipient users recipientId with
      | none =>
        ({ status := 404, error := some "Recipient not found",
           includesLogs := true }, [qEff])
      | some rec =>
        let doc := mkRoomDoc env b
        let wEff := Effect.storeWrite "room" (b.channelName.getD "") doc
        if !env.writeOk then
          ({ status := 500,
             error := some (if env.writeErrMsg.isEmpty then "Internal server error"
               else env.writeErrMsg),
             includesLogs := true, includesStack := env.debug }, [qEff, wEff])
        else
          let voipPart : Option Bool × List Effect :=
            if voipCond rec then attemptPush env.voipSendResult (voipMsg env b rec)
            else (none, [])
          let fcmPart : Option Bool × List Effect :=
            if jsTruthyS rec.fcmToken then attemptPush env.fcmSendResult (fcmMsg env b rec)
            else (some false, [])
          let overallSuccess := voipPart.1.getD false || fcmPart.1.getD false
          ({ status := 200, success := some overallSuccess, includesLogs := true },
           [qEff, wEff] ++ voipPart.2 ++ fcmPart.2)

/-! ## Observations over effect traces -/

/-- The push messages of a trace, in order. -/
def pushMsgs (effs : List Effect) : List PushMsg :=
  effs.filterMap (fun e =>
    match e with
    | .pushSend m => some m
    | _ => none)

/-- The push channels attempted, in order. -/
def pushKinds (effs : List Effect) : List PushKind :=
  (pushMsgs effs).map (fun m => m.kind)

/-- The room-document writes of a trace, in order, as key/document pairs. -/
def roomWrites (effs : List Effect) : List (String × RoomDoc) :=
  effs.filterMap (fun e =>
    match e with
    | .storeWrite _ k d => some (k, d)
    | _ => none)

/-- Whether an effect is a push dispatch. -/
def isPushEffect : Effect → Bool
  | .pushSend _ => true
  | _ => false

/-- Firestore `set` on a keyed collection: overwrite the document under the
key, or add it if absent. -/
def setDoc : List (String × RoomDoc) → String → RoomDoc → List (String × RoomDoc)
  | [], k, d => [(k, d)]
  | (k', d') :: rest, k, d =>
    if k' = k then (k, d) :: rest else (k', d') :: setDoc rest k d

/-- Apply a run's writes to a store state, in order. -/
def applyWrites (s : List (String × RoomDoc)) (ws : List (String × RoomDoc)) :
    List (String × RoomDoc) :=
  ws.foldl (fun acc kd => setDoc acc kd.1 kd.2) s

/-! ## Shape of a handler run, per branch -/

/-- A valid `POST` whose write succeeds: the 200 response and the full effect
trace — query, write, then the token-dependent pushes. -/
theorem handler_ok_run (env : Env) (req : Request) (users : List Profile)
    (b : RequestBody) (rec : Profile)
    (hm : req.method = "POST") (hb : req.body = some b)
    (hv : validBody b = true)
    (hr : findRecipient users (b.recipientId.getD "") = some rec)
    (hw : env.writeOk = true) :
    handler env req users =
      ({ status := 200,
         success := some ((if voipCond rec then exceptOk env.voipSendResult else false)
           || (if jsTruthyS rec.fcmToken then exceptOk env.fcmSendResult else false)),
         includesLogs := true },
       [Effect.storeQuery "user" "username" (b.recipientId.getD ""),
        Effect.storeWrite "room" (b.channelName.getD "") (mkRoomDoc env b)]
       ++ (if voipCond rec then [Effect.pushSend (voipMsg env b rec)] else [])
       ++ (if jsTruthyS rec.fcmToken then [Effect.pushSend (fcmMsg env b rec)] else [])) := by
  obtain ⟨m, o, a, bd⟩ := req
  simp only at hm hb
  subst hm
  subst hb
  by_cases h1 : voipCond rec <;> by_cases h2 : jsTruthyS rec.fcmToken <;>
    simp [handler, hv, hr, hw, attemptPush, h1, h2]

/-- A valid `POST` whose write fails: 500, effects stop at the write. -/
theorem handler_writefail_run (env : Env) (req : Request) (users : List Profile)
    (b : RequestBody) (rec : Profile)
    (hm : req.method = "POST") (hb : req.body = some b)
    (hv : validBody b = true)
    (hr : findRecipient users (b.recipientId.getD "") = some rec)
    (hw : env.writeOk = false) :
    handler env req users =
      ({ status := 500,
         error := some (if env.writeErrMsg.isEmpty then "Internal server error"
           else env.writeErrMsg),
         includesLogs := true, includesStack := env.debug },
       [Effect.storeQuery "user" "username" (b.recipientId.getD ""),
        Effect.storeWrite "room" (b.channelName.getD "") (mkRoomDoc env b)]) := by
  obtain ⟨m, o, a, bd⟩ := req
  simp only at hm hb
  subst hm
  subst hb
  simp [handler, hv, hr, hw]

/-- A `POST` failing validation: 400 and an empty effect trace. -/
theorem handler_invalid_run (env : Env) (req : Request) (users : List Profile)
    (hm : req.method = "POST")
    (hv : validBody (req.body.getD {}) = false) :
    handler env req users =
      ({ status := 400, error := some "Missing required fields",
         includesLogs := true, includesReceived := true }, []) := by
  obtain ⟨m, o, a, bd⟩ := req
  simp only at hm hv
  subst hm
  simp [handler, hv]

/-! ## The localhost allowance, characterized

`isLocalhostOrigin` implements the regex
`^https?:\/\/(localhost|127\.0\.0\.1)(:\d+)?$`; the lemmas below prove it
equivalent to the spec's reading: scheme `http` or `https`, host `localhost`
or `127.0.0.1`, optionally a colon-and-digits port. -/

/-- The spec's reading of the localhost pattern, as an explicit decomposition. -/
def LocalhostSpec (s : String) : Prop :=
  ∃ scheme host port : String,
    (scheme = "http://" ∨ scheme = "https://") ∧
    (host = "localhost" ∨ host = "127.0.0.1") ∧
    (port = "" ∨ ∃ ds : String,
      ds ≠ "" ∧ ds.data.all (fun c => c.isDigit) = true ∧ port = ":" ++ ds) ∧
    s = scheme ++ host ++ port

theorem dropPre?_eq_some : ∀ (p s r : List Char), dropPre? p s = some r ↔ s = p ++ r
  | [], s, r => by simp [dropPre?]
  | p :: ps, [], r => by simp [dropPre?]
  | p :: ps, c :: cs, r => by
    simp only [dropPre?, List.cons_append]
    by_cases h : c = p
    · subst h
      rw [if_pos rfl, dropPre?_eq_some ps cs r]
      simp
    · rw [if_neg h]
      simp [h]

theorem portTail_iff (t : List Char) :
    portTail t = true
      ↔ t = [] ∨ ∃ ds, ds ≠ [] ∧ ds.all (fun c => c.isDigit) = true ∧ t = ':' :: ds := by
  cases t with
  | nil => simp [portTail]
  | cons c ds =>
    by_cases hc : c = ':'
    · subst hc
      simp [portTail, List.isEmpty_iff]
    · constructor
      · intro h
        rw [portTail.eq_def] at h
        simp [hc] at h
      · rintro (h | ⟨ds', hne, hdig, heq⟩)
        · exact absurd h (by simp)
        · injection heq with h1 _
          exact absurd h1 hc

theorem hostTail_iff (r : List Char) :
    hostTail r = true
      ↔ ∃ t, (r = "localhost".data ++ t ∨ r = "127.0.0.1".data ++ t)
          ∧ portTail t = true := by
  rw [hostTail]
  cases h1 : dropPre? "localhost".data r <;> cases h2 : dropPre? "127.0.0.1".data r <;>
    simp only [h1, h2, Bool.or_eq_true, Bool.false_or, Bool.or_false]
  case none.none =>
    constructor
    · intro hF
      cases hF
    · rintro ⟨t, ht | ht, hp⟩
      · have hd := (dropPre?_eq_some "localhost".data r t).mpr ht
        rw [h1] at hd
        cases hd
      · have hd := (dropPre?_eq_some "127.0.0.1".data r t).mpr ht
        rw [h2] at hd
        cases hd
  case none.some t2 =>
    constructor
    · intro hp
      exact ⟨t2, Or.inr ((dropPre?_eq_some _ _ _).mp h2), hp⟩
    · rintro ⟨t, ht | ht, hp⟩
      · have hd := (dropPre?_eq_some "localhost".data r t).mpr ht
        rw [h1] at hd
        cases hd
      · have hd := (dropPre?_eq_some "127.0.0.1".data r t).mpr ht
        rw [h2] at hd
        injection hd with he
        subst he
        exact hp
  case some.none t1 =>
    constructor
    · intro hp
      exact ⟨t1, Or.inl ((dropPre?_eq_some _ _ _).mp h1), hp⟩
    · rintro ⟨t, ht | ht, hp⟩
      · have hd := (dropPre?_eq_some "localhost".data r t).mpr ht
        rw [h1] at hd
        injection hd with he
        subst he
        exact hp
      · have hd := (dropPre?_eq_some "127.0.0.1".data r t).mpr ht
        rw [h2] at hd
        cases hd
  case some.some t1 t2 =>
    constructor
    · rintro (hp | hp)
      · exact ⟨t1, Or.inl ((dropPre?_eq_some _ _ _).mp h1), hp⟩
      · exact ⟨t2, Or.inr ((dropPre?_eq_some _ _ _).mp h2), hp⟩
    · rintro ⟨t, ht | ht, hp⟩
      · have hd := (dropPre?_eq_some "localhost".data r t).mpr ht
        rw [h1] at hd
        injection hd with he
        subst he
        exact Or.inl hp
      · have hd := (dropPre?_eq_some "127.0.0.1".data r t).mpr ht
        rw [h2] at hd
        injection hd with he
        subst he
        exact Or.inr hp

theorem localhostChars_iff (cs : List Char) :
    localhostChars cs = true
      ↔ ∃ r, (cs = "http://".data ++ r ∨ cs = "https://".data ++ r)
          ∧ hostTail r = true := by
  rw [localhostChars]
  cases h1 : dropPre? "http://".data cs <;> cases h2 : dropPre? "https://".data cs <;>
    simp only [h1, h2, Bool.or_eq_true, Bool.false_or, Bool.or_false]
  case none.none =>
    constructor
    · intro hF
      cases hF
    · rintro ⟨t, ht | ht, hp⟩
      · have hd := (dropPre?_eq_some "http://".data cs t).mpr ht
        rw [h1] at hd
        cases hd
      · have hd := (dropPre?_eq_some "https://".data cs t).mpr ht
        rw [h2] at hd
        cases hd
  case none.some t2 =>
    constructor
    · intro hp
      exact ⟨t2, Or.inr ((dropPre?_eq_some _ _ _).mp h2), hp⟩
    · rintro ⟨t, ht | ht, hp⟩
      · have hd := (dropPre?_eq_some "http://".data cs t).mpr ht
        rw [h1] at hd
        cases hd
      · have hd := (dropPre?_eq_some "https://".data cs t).mpr ht
        rw [h2] at hd
        injection hd with he
        subst he
        exact hp
  case some.none t1 =>
    constructor
    · intro hp
      exact ⟨t1, Or.inl ((dropPre?_eq_some _ _ _).mp h1), hp⟩
    · rintro ⟨t, ht | ht, hp⟩
      · have hd := (dropPre?_eq_some "http://".data cs t).mpr ht
        rw [h1] at hd
        injection hd with he
        subst he
        exact hp
      · have hd := (dropPre?_eq_some "https://".data cs t).mpr ht
        rw [h2] at hd
        cases hd
  case some.some t1 t2 =>
    constructor
    · rintro (hp | hp)
      · exact ⟨t1, Or.inl ((dropPre?_eq_some _ _ _).mp h1), hp⟩
      · exact ⟨t2, Or.inr ((dropPre?_eq_some _ _ _).mp h2), hp⟩
    · rintro ⟨t, ht | ht, hp⟩
      · have hd := (dropPre?_eq_some "http://".data cs t).mpr ht
        rw [h1] at hd
        injection hd with he
        subst he
        exact Or.inl hp
      · have hd := (dropPre?_eq_some "https://".data cs t).mpr ht
        rw [h2] at hd
        injection hd with he
        subst he
        exact Or.inr hp

/-- Assemble a `LocalhostSpec` witness from character-level parts. -/
theorem localhostSpec_of_parts {s : String} (scheme host : String) (t : List Char)
    (hsch : scheme = "http://" ∨ scheme = "https://")
    (hhost : host = "localhost" ∨ host = "127.0.0.1")
    (hport : t = [] ∨ ∃ ds, ds ≠ [] ∧ ds.all (fun c => c.isDigit) = true ∧ t = ':' :: ds)
    (hdata : s.data = scheme.data ++ (host.data ++ t)) :
    LocalhostSpec s := by
  refine ⟨scheme, host, ⟨t⟩, hsch, hhost, ?_, ?_⟩
  · rcases hport with h | ⟨ds, hne, hdig, h⟩
    · subst h
      exact Or.inl rfl
    · subst h
      refine Or.inr ⟨⟨ds⟩, ?_, hdig, ?_⟩
      · intro hc
        exact hne (by simpa using congrArg String.data hc)
      · apply String.ext
        simp [String.data_append]
  · apply String.ext
    rw [String.data_append, String.data_append, hdata]
    simp

/-- **The localhost matcher is exactly the spec's pattern.** -/
theorem isLocalhostOrigin_iff (s : String) :
    isLocalhostOrigin (some s) = true ↔ LocalhostSpec s := by
  rw [isLocalhostOrigin]
  by_cases hE : s.isEmpty
  · rw [if_pos hE]
    have hs : s = "" := (String.isEmpty_iff s).mp hE
    subst hs
    simp only [Bool.false_eq_true, false_iff]
    rintro ⟨scheme, host, port, hscheme, _, _, hs⟩
    have hd : ("" : String).data = (scheme ++ host ++ port).data := by rw [← hs]
    rw [String.data_append, String.data_append] at hd
    rcases hscheme with h | h <;> subst h <;> simp at hd
  · rw [if_neg hE, localhostChars_iff]
    constructor
    · rintro ⟨r, hpre, hhost⟩
      rw [hostTail_iff] at hhost
      obtain ⟨t, hht, hport⟩ := hhost
      rw [portTail_iff] at hport
      rcases hpre with hpre | hpre <;> rcases hht with hht | hht
      · exact localhostSpec_of_parts "http://" "localhost" t (Or.inl rfl) (Or.inl rfl)
          hport (by rw [hpre, hht])
      · exact localhostSpec_of_parts "http://" "127.0.0.1" t (Or.inl rfl) (Or.inr rfl)
          hport (by rw [hpre, hht])
      · exact localhostSpec_of_parts "https://" "localhost" t (Or.inr rfl) (Or.inl rfl)
          hport (by rw [hpre, hht])
      · exact localhostSpec_of_parts "https://" "127.0.0.1" t (Or.inr rfl) (Or.inr rfl)
          hport (by rw [hpre, hht])
    · rintro ⟨scheme, host, port, hsch, hhost, hport, hs⟩
      have hdata : s.data = scheme.data ++ (host.data ++ port.data) := by
        rw [hs, String.data_append, String.data_append, List.append_assoc]
      have hpt : portTail port.data = true := by
        rcases hport with h | ⟨ds, hne, hdig, h⟩
        · subst h
          rfl
        · subst h
          have hcolon : ((":" : String) ++ ds).data = ':' :: ds.data := by
            rw [String.data_append]
            rfl
          rw [hcolon, portTail]
          have hds : ds.data ≠ [] := by
            intro hc
            exact hne (String.ext hc)
          simp [hdig, List.isEmpty_iff, hds]
      refine ⟨host.data ++ port.data, ?_, ?_⟩
      · rcases hsch with h | h <;> subst h
        · exact Or.inl hdata
        · exact Or.inr hdata
      · rw [hostTail_iff]
        refine ⟨port.data, ?_, hpt⟩
        rcases hhost with h | h <;> subst h
        · exact Or.inl rfl
        · exact Or.inr rfl

/-- A valid `POST` whose recipient is not found: 404, only the query ran. -/
theorem handler_notfound_run (env : Env) (req : Request) (users : List Profile)
    (b : RequestBody)
    (hm : req.method = "POST") (hb : req.body = some b)
    (hv : validBody b = true)
    (hr : findRecipient users (b.recipientId.getD "") = none) :
    handler env req users =
      ({ status := 404, error := some "Recipient not found", includesLogs := true },
       [Effect.storeQuery "user" "username" (b.recipientId.getD "")]) := by
  obtain ⟨m, o, a, bd⟩ := req
  simp only at hm hb
  subst hm
  subst hb
  simp [handler, hv, hr]

/-- A preflight `OPTIONS` request: 204, empty body, no effects. -/
theorem handler_options_run (env : Env) (req : Request) (users : List Profile)
    (h : req.method = "OPTIONS") :
    handler env req users = ({ status := 204 }, []) := by
  obtain ⟨m, o, a, bd⟩ := req
  simp only at h
  subst h
  simp [handler]

/-- Any other method: 405 with no effects. -/
theorem handler_badmethod_run (env : Env) (req : Request) (users : List Profile)
    (h1 : req.method ≠ "OPTIONS") (h2 : req.method ≠ "POST") :
    handler env req users =
      ({ status := 405, error := some "Method not allowed", includesLogs := true },
       []) := by
  obtain ⟨m, o, a, bd⟩ := req
  simp only at h1 h2
  simp [handler, h1, h2]

/-- An empty body never validates (all four required fields are absent). -/
theorem validBody_empty : validBody {} = false := rfl

/-- A `POST` request with a valid body has `body = some b`. -/
theorem body_of_valid (req : Request) (hv : validBody (req.body.getD {}) = true) :
    ∃ b, req.body = some b ∧ validBody b = true := by
  cases hb : req.body with
  | some b =>
    refine ⟨b, rfl, ?_⟩
    rw [hb] at hv
    simpa using hv
  | none =>
    rw [hb] at hv
    simp only [Option.getD_none] at hv
    exact absurd hv (by rw [validBody_empty]; simp)

/-! ## Value-shape observations -/

/-- Whether a JS value is a string. -/
def isStrVal : JsVal → Bool
  | .str _ => true
  | _ => false

/-- Whether a JS value is a number. -/
def isNumVal : JsVal → Bool
  | .num _ => true
  | _ => false

/-- Overwriting the same key with the same document twice is the same as once:
the second identical write changes nothing and creates no duplicate. -/
theorem setDoc_idem : ∀ (s : List (String × RoomDoc)) (k : String) (d : RoomDoc),
    setDoc (setDoc s k d) k d = setDoc s k d
  | [], k, d => by simp [setDoc]
  | (k', d') :: rest, k, d => by
    by_cases h : k' = k
    · subst h
      simp [setDoc]
    · simp [setDoc, h, setDoc_idem rest k d]

/-! ## Concrete instances (used by witnesses and counterexamples) -/

/-- The spec's concrete scenario body:
`{callId:"c1", channelName:"room1", callerUid:"u1", recipientId:"bob"}`. -/
def bodyStd : RequestBody :=
  { callId := some "c1"
    channelName := some "room1"
    callerUid := some "u1"
    recipientId := some "bob" }

/-- A request body with an empty `callId`. -/
def bodyMissing : RequestBody :=
  { callId := some ""
    channelName := some "room1"
    callerUid := some "u1"
    recipientId := some "bob" }

/-- A valid `POST` request carrying `bodyStd`. -/
def reqStd : Request := { method := "POST", body := some bodyStd }

/-- An iOS recipient holding both a VoIP token and an FCM token. -/
def bobIos : Profile :=
  { username := "bob"
    fcmToken := some "F"
    voipToken := some "V"
    platform := some "iOS" }

/-- An Android recipient with an FCM token only. -/
def bobAndroid : Profile := { username := "bob", fcmToken := some "TOK" }

/-- The default environment: debug off, write succeeds, both sends succeed. -/
def envStd : Env := {}

/-- An environment in which both transport sends fail. -/
def envBothFail : Env :=
  { voipSendResult := Except.error "boom1"
    fcmSendResult := Except.error "boom2" }

/-! ## The claims -/

/-- C1, counterexample: for the concrete valid request `reqStd` and the iOS
recipient `bobIos` (platform `"iOS"`, VoIP token and FCM token both present),
the handler attempts the VoIP push AND the general messaging (FCM) push — the
claim's "the general messaging push path is not attempted, irrespective of
whether the recipient also has an fcmToken" is false on the code. -/
theorem C1_counterexample :
    recPlatform bobIos = "ios"
    ∧ jsTruthyS bobIos.voipToken = true
    ∧ jsTruthyS bobIos.fcmToken = true
    ∧ pushKinds (handler envStd reqStd [bobIos]).2 = [PushKind.voip, PushKind.fcm] :=
  ⟨by rfl, rfl, rfl, by rfl⟩

/-- C1 (amended): for every valid POST whose recipient resolves with
case-normalized platform `"ios"` and a truthy VoIP token, the platform-native
VoIP push is attempted first, and the general messaging push is additionally
attempted exactly when the recipient also has a truthy `fcmToken`; with no
`fcmToken` only the VoIP push is attempted. -/
theorem C1_voip_dispatch (env : Env) (req : Request) (users : List Profile)
    (b : RequestBody) (rec : Profile)
    (hm : req.method = "POST") (hb : req.body = some b)
    (hv : validBody b = true)
    (hr : findRecipient users (b.recipientId.getD "") = some rec)
    (hplat : recPlatform rec = "ios")
    (hvoip : jsTruthyS rec.voipToken = true)
    (hw : env.writeOk = true) :
    pushKinds (handler env req users).2
      = PushKind.voip :: (if jsTruthyS rec.fcmToken then [PushKind.fcm] else []) := by
  rw [handler_ok_run env req users b rec hm hb hv hr hw]
  have hcond : voipCond rec = true := by simp [voipCond, hplat, hvoip]
  by_cases h2 : jsTruthyS rec.fcmToken <;>
    simp [pushKinds, pushMsgs, hcond, h2, voipMsg, fcmMsg]

/-- C1 witness: the amended dispatch rule at the concrete iOS recipient. -/
theorem C1_voip_dispatch_witness :
    validBody bodyStd = true
    ∧ recPlatform bobIos = "ios"
    ∧ pushKinds (handler envStd reqStd [bobIos]).2
        = PushKind.voip :: (if jsTruthyS bobIos.fcmToken then [PushKind.fcm] else []) :=
  ⟨rfl, by rfl,
    C1_voip_dispatch envStd reqStd [bobIos] bodyStd bobIos rfl rfl rfl (by rfl) (by rfl)
      rfl rfl⟩

/-- C2: a POST in which any of the four required fields is empty or absent gets
a 400 response and produces no external effect at all: no store read, no store
write, no push. -/
theorem C2_validation_guard (env : Env) (req : Request) (users : List Profile)
    (hm : req.method = "POST")
    (hv : validBody (req.body.getD {}) = false) :
    (handler env req users).1.status = 400 ∧ (handler env req users).2 = [] := by
  rw [handler_invalid_run env req users hm hv]
  exact ⟨rfl, rfl⟩

/-- C2 witness: the guard at a concrete request with an empty `callId`. -/
theorem C2_validation_guard_witness :
    validBody (({ method := "POST", body := some bodyMissing } : Request).body.getD {})
        = false
    ∧ (handler envStd { method := "POST", body := some bodyMissing } []).1.status = 400
    ∧ (handler envStd { method := "POST", body := some bodyMissing } []).2 = [] :=
  ⟨rfl,
    (C2_validation_guard envStd { method := "POST", body := some bodyMissing } [] rfl
      rfl).1,
    (C2_validation_guard envStd { method := "POST", body := some bodyMissing } [] rfl
      rfl).2⟩

/-- C3: a valid POST whose `recipientId` matches no stored profile gets a 404,
and the only external effect is the lookup query: no record write, no push. -/
theorem C3_notfound_guard (env : Env) (req : Request) (users : List Profile)
    (b : RequestBody)
    (hm : req.method = "POST") (hb : req.body = some b)
    (hv : validBody b = true)
    (hr : findRecipient users (b.recipientId.getD "") = none) :
    (handler env req users).1.status = 404
    ∧ (handler env req users).2
        = [Effect.storeQuery "user" "username" (b.recipientId.getD "")]
    ∧ roomWrites (handler env req users).2 = []
    ∧ pushMsgs (handler env req users).2 = [] := by
  rw [handler_notfound_run env req users b hm hb hv hr]
  refine ⟨rfl, rfl, rfl, rfl⟩

/-- C3 witness: the guard at the concrete request against an empty store. -/
theorem C3_notfound_guard_witness :
    validBody bodyStd = true
    ∧ findRecipient [] (bodyStd.recipientId.getD "") = none
    ∧ (handler envStd reqStd []).1.status = 404
    ∧ roomWrites (handler envStd reqStd []).2 = [] :=
  ⟨rfl, rfl, (C3_notfound_guard envStd reqStd [] bodyStd rfl rfl rfl rfl).1,
    (C3_notfound_guard envStd reqStd [] bodyStd rfl rfl rfl rfl).2.2.1⟩

/-- C4: for every valid POST with a resolved recipient, the effect trace is the
query, then the record write, then only push effects — so the write precedes
every push dispatch; and if the write fails the response is 500 with no push
attempted. -/
theorem C4_write_before_push (env : Env) (req : Request) (users : List Profile)
    (b : RequestBody) (rec : Profile)
    (hm : req.method = "POST") (hb : req.body = some b)
    (hv : validBody b = true)
    (hr : findRecipient users (b.recipientId.getD "") = some rec) :
    (∃ tail,
      (handler env req users).2
        = Effect.storeQuery "user" "username" (b.recipientId.getD "")
          :: Effect.storeWrite "room" (b.channelName.getD "") (mkRoomDoc env b)
          :: tail
      ∧ ∀ e ∈ tail, isPushEffect e = true)
    ∧ (env.writeOk = false →
        (handler env req users).1.status = 500
        ∧ pushMsgs (handler env req users).2 = []) := by
  by_cases hw : env.writeOk = true
  · rw [handler_ok_run env req users b rec hm hb hv hr hw]
    constructor
    · refine ⟨(if voipCond rec then [Effect.pushSend (voipMsg env b rec)] else [])
        ++ (if jsTruthyS rec.fcmToken then [Effect.pushSend (fcmMsg env b rec)]
          else []), by simp, ?_⟩
      intro e he
      by_cases h1 : voipCond rec <;> by_cases h2 : jsTruthyS rec.fcmToken
      · simp [h1, h2] at he
        rcases he with rfl | rfl <;> rfl
      · simp [h1, h2] at he
        subst he
        rfl
      · simp [h1, h2] at he
        subst he
        rfl
      · simp [h1, h2] at he
    · intro hwf
      rw [hw] at hwf
      cases hwf
  · have hw' : env.writeOk = false := by
      revert hw
      cases env.writeOk <;> simp
    rw [handler_writefail_run env req users b rec hm hb hv hr hw']
    exact ⟨⟨[], rfl, by simp⟩, fun _ => ⟨rfl, rfl⟩⟩

/-- C4 witness: the ordering and the write-failure abort at a concrete run. -/
theorem C4_write_before_push_witness :
    validBody bodyStd = true
    ∧ (∃ tail,
        (handler { writeOk := false } reqStd [bobIos]).2
          = Effect.storeQuery "user" "username" (bodyStd.recipientId.getD "")
            :: Effect.storeWrite "room" (bodyStd.channelName.getD "")
                 (mkRoomDoc { writeOk := false } bodyStd)
            :: tail
        ∧ ∀ e ∈ tail, isPushEffect e = true)
    ∧ (handler { writeOk := false } reqStd [bobIos]).1.status = 500
    ∧ pushMsgs (handler { writeOk := false } reqStd [bobIos]).2 = [] :=
  ⟨rfl,
    (C4_write_before_push { writeOk := false } reqStd [bobIos] bodyStd bobIos rfl rfl
      rfl rfl).1,
    ((C4_write_before_push { writeOk := false } reqStd [bobIos] bodyStd bobIos rfl rfl
      rfl rfl).2 rfl).1,
    ((C4_write_before_push { writeOk := false } reqStd [bobIos] bodyStd bobIos rfl rfl
      rfl rfl).2 rfl).2⟩

/-- C5: once the record write succeeded, the outcome of the push sends — both
may fail, in any combination, since the environment is arbitrary here — never
changes the 200 response, never suppresses the other channel (the attempted
channels depend only on the recipient's platform and tokens), and never writes
to the store again (the trace holds exactly one write, the original record). -/
theorem C5_push_failure_isolated (env : Env) (req : Request) (users : List Profile)
    (b : RequestBody) (rec : Profile)
    (hm : req.method = "POST") (hb : req.body = some b)
    (hv : validBody b = true)
    (hr : findRecipient users (b.recipientId.getD "") = some rec)
    (hw : env.writeOk = true) :
    (handler env req users).1.status = 200
    ∧ roomWrites (handler env req users).2
        = [((b.channelName.getD ""), mkRoomDoc env b)]
    ∧ pushKinds (handler env req users).2
        = (if voipCond rec then [PushKind.voip] else [])
          ++ (if jsTruthyS rec.fcmToken then [PushKind.fcm] else []) := by
  rw [handler_ok_run env req users b rec hm hb hv hr hw]
  refine ⟨rfl, ?_, ?_⟩ <;>
    by_cases h1 : voipCond rec <;> by_cases h2 : jsTruthyS rec.fcmToken <;>
      simp [roomWrites, pushKinds, pushMsgs, h1, h2, voipMsg, fcmMsg]

/-- C5 witness: both transport calls fail, yet the response is still 200, both
channels were attempted, and the single record write stands. -/
theorem C5_push_failure_isolated_witness :
    validBody bodyStd = true
    ∧ (handler envBothFail reqStd [bobIos]).1.status = 200
    ∧ pushKinds (handler envBothFail reqStd [bobIos]).2
        = (if voipCond bobIos then [PushKind.voip] else [])
          ++ (if jsTruthyS bobIos.fcmToken then [PushKind.fcm] else []) :=
  ⟨rfl,
    (C5_push_failure_isolated envBothFail reqStd [bobIos] bodyStd bobIos rfl rfl rfl
      rfl rfl).1,
    (C5_push_failure_isolated envBothFail reqStd [bobIos] bodyStd bobIos rfl rfl rfl
      rfl rfl).2.2⟩

/-- The nested object used in the round-trip witnesses: the
`missedCallNotification` value of the base payload (with its JS boolean
replaced faithfully). -/
def mmStd : JsMembers :=
  .cons "showNotification" (.bool true) (.cons "count" (.num 1) .nil)

/-- C6, counterexample: for the concrete iOS recipient, both data maps handed
to the messaging transport carry the CallKit field `type` as the number `1`,
not as a string — `normalizeDataMapForIOS` keeps `type`/`duration` numeric on
purpose (source lines 98-106), so "the data map … contains only string values"
is false on the code. -/
theorem C6_counterexample :
    (pushMsgs (handler envStd reqStd [bobIos]).2).map (fun m => m.data.lookup "type")
        = [some (JsVal.num 1), some (JsVal.num 1)]
    ∧ isStrVal (JsVal.num 1) = false :=
  ⟨by rfl, rfl⟩

/-- C6 (amended): the general (Android-path) coercion
`normalizeDataMapForAndroid` produces only string values, and JSON-encodes any
nested-object value so that, for JSON-representable objects (no `undefined`
members), parsing on receipt recovers the original structure; the iOS-path
coercion `normalizeDataMapForIOS` produces string values except for the
CallKit fields `type` and `duration`, which it keeps as numbers. -/
theorem C6_string_coercion :
    (∀ (entries : List (String × JsVal)) (p : String × JsVal),
      p ∈ normalizeDataMapForAndroid entries → isStrVal p.2 = true)
    ∧ (∀ (entries : List (String × JsVal)) (k : String) (ms : JsMembers),
      (k, JsVal.obj ms) ∈ entries → ms.noUndef = true →
      (k, JsVal.str (jsonStringify (JsVal.obj ms))) ∈ normalizeDataMapForAndroid entries
      ∧ jsonParse (jsonStringify (JsVal.obj ms)) = some (JsVal.obj ms))
    ∧ (∀ (entries : List (String × JsVal)) (p : String × JsVal),
      p ∈ normalizeDataMapForIOS entries →
      isStrVal p.2 = true ∨ (p.1 ∈ iosNumericFields ∧ isNumVal p.2 = true)) := by
  refine ⟨?_, ?_, ?_⟩
  · intro entries p hp
    rw [normalizeDataMapForAndroid, List.mem_filterMap] at hp
    obtain ⟨⟨k, v⟩, _, hkv⟩ := hp
    cases v
    case null => exact absurd hkv (by simp)
    case undef => exact absurd hkv (by simp)
    all_goals cases hkv
    all_goals rfl
  · intro entries k ms hmem hno
    constructor
    · rw [normalizeDataMapForAndroid, List.mem_filterMap]
      exact ⟨(k, JsVal.obj ms), hmem, rfl⟩
    · exact jsonParse_jsonStringify (JsVal.obj ms) (by simpa [JsVal.noUndef] using hno)
  · intro entries p hp
    rw [normalizeDataMapForIOS, List.mem_filterMap] at hp
    obtain ⟨⟨k, v⟩, _, hkv⟩ := hp
    cases v
    case null => exact absurd hkv (by simp)
    case undef => exact absurd hkv (by simp)
    all_goals dsimp only at hkv
    all_goals by_cases hnum : iosNumericFields.contains k = true
    all_goals
      first
      | (rw [if_pos hnum] at hkv
         cases hkv
         exact Or.inr ⟨by simpa using hnum, rfl⟩)
      | (rw [if_neg hnum] at hkv
         cases hkv
         exact Or.inl rfl)

/-- C6 witness: the amended coercion property exercised on concrete inputs —
a boolean value becomes the string `"true"`, and the nested object `mmStd`
JSON-round-trips through the coercion back to itself. -/
theorem C6_string_coercion_witness :
    (("a", JsVal.str "true") ∈ normalizeDataMapForAndroid [("a", JsVal.bool true)]
      ∧ isStrVal (JsVal.str "true") = true)
    ∧ (("x", JsVal.obj mmStd) ∈ [("x", JsVal.obj mmStd)]
      ∧ mmStd.noUndef = true
      ∧ jsonParse (jsonStringify (JsVal.obj mmStd)) = some (JsVal.obj mmStd)) :=
  have hmem1 : ("a", JsVal.str "true") ∈ normalizeDataMapForAndroid
      [("a", JsVal.bool true)] := by
    rw [show normalizeDataMapForAndroid [("a", JsVal.bool true)]
        = [("a", JsVal.str "true")] from rfl]
    exact List.mem_singleton.mpr rfl
  have hmem2 : ("x", JsVal.obj mmStd) ∈ [("x", JsVal.obj mmStd)] :=
    List.mem_singleton.mpr rfl
  have hno : mmStd.noUndef = true := by
    simp [mmStd, JsMembers.noUndef, JsVal.noUndef]
  ⟨⟨hmem1, C6_string_coercion.1 [("a", JsVal.bool true)] ("a", JsVal.str "true") hmem1⟩,
   ⟨hmem2, hno,
    (C6_string_coercion.2.1 [("x", JsVal.obj mmStd)] "x" mmStd hmem2 hno).2⟩⟩

/-- C7, counterexample: a request whose `Origin` header is present but has the
empty value is neither allow-listed nor a localhost origin, yet the resolver
answers `*` (the empty string is falsy in JS and takes the "no header" branch)
— not the literal `"null"` the claim requires for that case. -/
theorem C7_counterexample :
    (buildCorsHeaders DEFAULT_ALLOWED_ORIGINS (some "") "").allowOrigin = "*"
    ∧ (buildCorsHeaders DEFAULT_ALLOWED_ORIGINS (some "") "").allowCredentials = none
    ∧ ("" ∈ DEFAULT_ALLOWED_ORIGINS → False)
    ∧ isLocalhostOrigin (some "") = false :=
  ⟨rfl, rfl, by decide, rfl⟩

/-- C7 (amended): the resolver echoes the exact origin and sets
`Access-Control-Allow-Credentials: true` precisely when a nonempty origin is
allow-listed or matches the localhost pattern (`LocalhostSpec`: `http`/`https`,
host `localhost` or `127.0.0.1`, any optional port); it answers `*` when the
`Origin` header is absent — or present with the empty value, which the code
treats as absent; and it answers the literal `"null"`, without credentials, for
every other nonempty origin. -/
theorem C7_cors_policy (list : List String) (origin : Option String) (acr : String) :
    (∀ s, origin = some s → s ≠ "" → (s ∈ list ∨ LocalhostSpec s) →
      (buildCorsHeaders list origin acr).allowOrigin = s
      ∧ (buildCorsHeaders list origin acr).allowCredentials = some "true")
    ∧ ((origin = none ∨ origin = some "") →
      (buildCorsHeaders list origin acr).allowOrigin = "*"
      ∧ (buildCorsHeaders list origin acr).allowCredentials = none)
    ∧ (∀ s, origin = some s → s ≠ "" → ¬(s ∈ list ∨ LocalhostSpec s) →
      (buildCorsHeaders list origin acr).allowOrigin = "null"
      ∧ (buildCorsHeaders list origin acr).allowCredentials = none) := by
  refine ⟨?_, ?_, ?_⟩
  · rintro s rfl hne hmem
    have hie : s.isEmpty = false := by
      cases hE : s.isEmpty with
      | true => exact absurd ((String.isEmpty_iff s).mp hE) hne
      | false => rfl
    have htr : jsTruthyS (some s) = true := by simp [jsTruthyS, hie]
    rcases hmem with hmem | hmem
    · constructor <;> simp [buildCorsHeaders, htr, hmem]
    · have hl : isLocalhostOrigin (some s) = true := (isLocalhostOrigin_iff s).mpr hmem
      constructor <;> simp [buildCorsHeaders, htr, hl]
  · have h0 : "".isEmpty = true := rfl
    rintro (rfl | rfl) <;> constructor <;>
      simp [buildCorsHeaders, jsTruthyS, h0]
  · rintro s rfl hne hmem
    obtain ⟨hm1, hm2⟩ := not_or.mp hmem
    have hie : s.isEmpty = false := by
      cases hE : s.isEmpty with
      | true => exact absurd ((String.isEmpty_iff s).mp hE) hne
      | false => rfl
    have htr : jsTruthyS (some s) = true := by simp [jsTruthyS, hie]
    have hl : isLocalhostOrigin (some s) = false := by
      cases hE : isLocalhostOrigin (some s) with
      | true => exact absurd ((isLocalhostOrigin_iff s).mp hE) hm2
      | false => rfl
    constructor <;> simp [buildCorsHeaders, htr, hl, hm1]

/-- C7 witness: the spec's concrete scenario — `Origin: http://localhost:5173`
is a localhost origin, is echoed exactly, and gets credentials. -/
theorem C7_cors_policy_witness :
    LocalhostSpec "http://localhost:5173"
    ∧ (buildCorsHeaders DEFAULT_ALLOWED_ORIGINS (some "http://localhost:5173")
        "").allowOrigin = "http://localhost:5173"
    ∧ (buildCorsHeaders DEFAULT_ALLOWED_ORIGINS (some "http://localhost:5173")
        "").allowCredentials = some "true" :=
  have hspec : LocalhostSpec "http://localhost:5173" :=
    ⟨"http://", "localhost", ":5173", Or.inl rfl, Or.inl rfl,
      Or.inr ⟨"5173", by decide, by decide, by decide⟩, by decide⟩
  ⟨hspec,
    ((C7_cors_policy DEFAULT_ALLOWED_ORIGINS (some "http://localhost:5173") "").1
      "http://localhost:5173" rfl (by decide) (Or.inr hspec)).1,
    ((C7_cors_policy DEFAULT_ALLOWED_ORIGINS (some "http://localhost:5173") "").1
      "http://localhost:5173" rfl (by decide) (Or.inr hspec)).2⟩

/-- C8, counterexample: with debug mode disabled (the default environment), a
405 response still carries the accumulated `logs` array — diagnostic detail
appears in the response body regardless of the debug flag, so the claim's
"contains no such diagnostic fields when debug is disabled" is false.  Only
the `stack` field is debug-gated. -/
theorem C8_counterexample :
    envStd.debug = false
    ∧ (handler envStd { method := "GET" } []).1.includesLogs = true :=
  ⟨rfl, rfl⟩

/-- C8 (amended): the stack trace appears in a response body only when debug
mode is enabled, but the accumulated log entries are included in every
non-preflight response — success and error alike — regardless of debug mode. -/
theorem C8_debug_gating (env : Env) (req : Request) (users : List Profile) :
    ((handler env req users).1.includesStack = true → env.debug = true)
    ∧ ((handler env req users).1.status ≠ 204 →
      (handler env req users).1.includesLogs = true) := by
  by_cases h1 : req.method = "OPTIONS"
  · rw [handler_options_run env req users h1]
    simp
  · by_cases h2 : req.method = "POST"
    · by_cases hv : validBody (req.body.getD {}) = true
      · obtain ⟨b, hb, hv'⟩ := body_of_valid req hv
        cases hr : findRecipient users (b.recipientId.getD "") with
        | none =>
          rw [handler_notfound_run env req users b h2 hb hv' hr]
          simp
        | some rec =>
          by_cases hw : env.writeOk = true
          · rw [handler_ok_run env req users b rec h2 hb hv' hr hw]
            simp
          · have hw' : env.writeOk = false := by
              revert hw
              cases env.writeOk <;> simp
            rw [handler_writefail_run env req users b rec h2 hb hv' hr hw']
            simp
      · have hv' : validBody (req.body.getD {}) = false := by
          revert hv
          cases validBody (req.body.getD {}) <;> simp
        rw [handler_invalid_run env req users h2 hv']
        simp
    · rw [handler_badmethod_run env req users h1 h2]
      simp

/-- C8 witness: a failing write with debug enabled produces a 500 whose body
carries the stack, and the gating theorem recovers `debug = true` from it;
the same response also carries the logs. -/
theorem C8_debug_gating_witness :
    (handler { debug := true, writeOk := false } reqStd [bobIos]).1.includesStack = true
    ∧ ({ debug := true, writeOk := false } : Env).debug = true
    ∧ (handler { debug := true, writeOk := false } reqStd [bobIos]).1.includesLogs
        = true :=
  ⟨rfl,
    (C8_debug_gating { debug := true, writeOk := false } reqStd [bobIos]).1 rfl,
    (C8_debug_gating { debug := true, writeOk := false } reqStd [bobIos]).2
      (by decide)⟩

/-- C9: a valid request writes exactly one record, keyed by the channel name;
running the identical request again overwrites that record with identical
content — applying the same write twice leaves the store exactly as one
application does, with no duplicate — while the push attempts of the two runs
simply accumulate (they are not deduplicated: with an FCM token present, each
run dispatches its own nonempty batch of pushes). -/
theorem C9_idempotent_overwrite (env : Env) (req : Request) (users : List Profile)
    (b : RequestBody) (rec : Profile)
    (hm : req.method = "POST") (hb : req.body = some b)
    (hv : validBody b = true)
    (hr : findRecipient users (b.recipientId.getD "") = some rec)
    (hw : env.writeOk = true) :
    roomWrites (handler env req users).2
        = [((b.channelName.getD ""), mkRoomDoc env b)]
    ∧ (∀ store, applyWrites (applyWrites store (roomWrites (handler env req users).2))
        (roomWrites (handler env req users).2)
        = applyWrites store (roomWrites (handler env req users).2))
    ∧ pushMsgs ((handler env req users).2 ++ (handler env req users).2)
        = pushMsgs (handler env req users).2 ++ pushMsgs (handler env req users).2
    ∧ (jsTruthyS rec.fcmToken = true → pushMsgs (handler env req users).2 ≠ []) := by
  have htrace := handler_ok_run env req users b rec hm hb hv hr hw
  have hwr : roomWrites (handler env req users).2
      = [((b.channelName.getD ""), mkRoomDoc env b)] := by
    rw [htrace]
    by_cases h1 : voipCond rec <;> by_cases h2 : jsTruthyS rec.fcmToken <;>
      simp [roomWrites, h1, h2]
  refine ⟨hwr, ?_, ?_, ?_⟩
  · intro store
    rw [hwr]
    simp [applyWrites, setDoc_idem]
  · simp [pushMsgs, List.filterMap_append]
  · intro hf
    rw [htrace]
    by_cases h1 : voipCond rec <;> simp [pushMsgs, h1, hf]

/-- C9 witness: the overwrite-idempotence and double-dispatch at the concrete
Android scenario, with the store starting empty. -/
theorem C9_idempotent_overwrite_witness :
    validBody bodyStd = true
    ∧ roomWrites (handler envStd reqStd [bobAndroid]).2
        = [((bodyStd.channelName.getD ""), mkRoomDoc envStd bodyStd)]
    ∧ applyWrites (applyWrites [] (roomWrites (handler envStd reqStd [bobAndroid]).2))
        (roomWrites (handler envStd reqStd [bobAndroid]).2)
        = applyWrites [] (roomWrites (handler envStd reqStd [bobAndroid]).2)
    ∧ pushMsgs (handler envStd reqStd [bobAndroid]).2 ≠ [] :=
  ⟨rfl,
    (C9_idempotent_overwrite envStd reqStd [bobAndroid] bodyStd bobAndroid rfl rfl rfl
      rfl rfl).1,
    (C9_idempotent_overwrite envStd reqStd [bobAndroid] bodyStd bobAndroid rfl rfl rfl
      rfl rfl).2.1 [],
    (C9_idempotent_overwrite envStd reqStd [bobAndroid] bodyStd bobAndroid rfl rfl rfl
      rfl rfl).2.2.2 rfl⟩

/-- C10: every call record the handler ever writes — on any request, against
any store, under any environment — has its `platform` field equal to the
constant `"web"`; the recipient's platform value never reaches the record. -/
theorem C10_record_platform_web (env : Env) (req : Request) (users : List Profile) :
    ∀ kd ∈ roomWrites (handler env req users).2, kd.2.platform = "web" := by
  intro kd hkd
  by_cases h1 : req.method = "OPTIONS"
  · rw [handler_options_run env req users h1] at hkd
    simp [roomWrites] at hkd
  · by_cases h2 : req.method = "POST"
    · by_cases hv : validBody (req.body.getD {}) = true
      · obtain ⟨b, hb, hv'⟩ := body_of_valid req hv
        cases hr : findRecipient users (b.recipientId.getD "") with
        | none =>
          rw [handler_notfound_run env req users b h2 hb hv' hr] at hkd
          simp [roomWrites] at hkd
        | some rec =>
          by_cases hw : env.writeOk = true
          · rw [handler_ok_run env req users b rec h2 hb hv' hr hw] at hkd
            by_cases ha : voipCond rec <;> by_cases hf : jsTruthyS rec.fcmToken <;>
              (simp [roomWrites, ha, hf] at hkd
               subst hkd
               rfl)
          · have hw' : env.writeOk = false := by
              revert hw
              cases env.writeOk <;> simp
            rw [handler_writefail_run env req users b rec h2 hb hv' hr hw'] at hkd
            simp [roomWrites] at hkd
            subst hkd
            rfl
      · have hv' : validBody (req.body.getD {}) = false := by
          revert hv
          cases validBody (req.body.getD {}) <;> simp
        rw [handler_invalid_run env req users h2 hv'] at hkd
        simp [roomWrites] at hkd
    · rw [handler_badmethod_run env req users h1 h2] at hkd
      simp [roomWrites] at hkd

/-- C10 witness: the record written for the concrete Android scenario is in the
trace and carries `platform = "web"`. -/
theorem C10_record_platform_web_witness :
    ((bodyStd.channelName.getD ""), mkRoomDoc envStd bodyStd)
        ∈ roomWrites (handler envStd reqStd [bobAndroid]).2
    ∧ (mkRoomDoc envStd bodyStd).platform = "web" :=
  have hmem : ((bodyStd.channelName.getD ""), mkRoomDoc envStd bodyStd)
      ∈ roomWrites (handler envStd reqStd [bobAndroid]).2 := by
    rw [show roomWrites (handler envStd reqStd [bobAndroid]).2
        = [((bodyStd.channelName.getD ""), mkRoomDoc envStd bodyStd)] from rfl]
    exact List.mem_singleton.mpr rfl
  ⟨hmem, C10_record_platform_web envStd reqStd [bobAndroid] _ hmem⟩

end CallPoc
